import Mathlib

/-!
Verification of the ltfs-tools verified-transfer pipeline.

This file gives a shallow embedding, in Lean 4, of the parts of the
ltfs-tools Python code base that the specification talks about:

- src/ltfs_tools/hash.py        (XXHash64 streaming digest)
- src/ltfs_tools/transfer.py    (five-phase transfer pipeline)
- src/ltfs_tools/catalog_db.py  (SQLite catalog, modelled relationally)
- src/ltfs_tools/mhl.py         (Manifest serialization)
- src/ltfs_tools/cli.py         (recover and finalize entry points)

Pure functions of the Python code become Lean functions; the SQLite store
becomes an explicit record of rows; machine integers are Nat with explicit
reduction modulo 2^64 where the digest arithmetic overflows; filesystem
reads that can raise OSError are modelled by explicit outcome values.
Unicode NFC normalization (unicodedata.normalize in utils.normalize_path)
is kept as an explicit function parameter named nfc, since the claims under
study do not depend on the table-driven details of NFC itself.
-/

namespace LTFSTools

/-! ## ContentDigest: src/ltfs_tools/hash.py

The Python module delegates the arithmetic to the xxhash library
(XXH64, seed 0).  The algorithm is embedded here in full, over Nat with
explicit reduction modulo 2^64, in its streaming form: an internal state
holding the four lane accumulators and a buffer of fewer than 32 pending
bytes, an update that absorbs bytes and consumes full 32-byte stripes,
and a finalization that folds the pending tail and avalanches. -/

namespace Hash

def U64 : Nat := 2 ^ 64

def PRIME64_1 : Nat := 11400714785074694791

def PRIME64_2 : Nat := 14029467366897019727

def PRIME64_3 : Nat := 1609587929392839161

def PRIME64_4 : Nat := 9650029242287828579

def PRIME64_5 : Nat := 2870177450012600261

def add64 (a b : Nat) : Nat := (a + b) % U64

def mul64 (a b : Nat) : Nat := (a * b) % U64

def xor64 (a b : Nat) : Nat := a ^^^ b

def rotl64 (x r : Nat) : Nat := ((x <<< r) % U64) ||| (x >>> (64 - r))

/-- Little-endian read of a byte list as one natural number. -/
def readLE : List Nat → Nat
  | [] => 0
  | b :: rest => b + 256 * readLE rest

def xxRound (acc input : Nat) : Nat :=
  mul64 (rotl64 (add64 acc (mul64 input PRIME64_2)) 31) PRIME64_1

def mergeRound (h v : Nat) : Nat :=
  add64 (mul64 (xor64 h (xxRound 0 v)) PRIME64_1) PRIME64_4

structure XXH64State where
  totalLen : Nat
  v1 : Nat
  v2 : Nat
  v3 : Nat
  v4 : Nat
  buffer : List Nat
deriving Repr, DecidableEq

/-- Initial streaming state for seed 0. -/
def xxInit : XXH64State :=
  { totalLen := 0
    v1 := (PRIME64_1 + PRIME64_2) % U64
    v2 := PRIME64_2
    v3 := 0
    v4 := (U64 - PRIME64_1) % U64
    buffer := [] }

/-- Consume one full 32-byte stripe into the four lane accumulators. -/
def processBlock (s : XXH64State) (block : List Nat) : XXH64State :=
  { s with
    v1 := xxRound s.v1 (readLE (block.take 8))
    v2 := xxRound s.v2 (readLE ((block.drop 8).take 8))
    v3 := xxRound s.v3 (readLE ((block.drop 16).take 8))
    v4 := xxRound s.v4 (readLE ((block.drop 24).take 8)) }

/-- Absorb one byte: append to the pending buffer and, when a full
32-byte stripe has accumulated, consume it. -/
def absorbByte (s : XXH64State) (b : Nat) : XXH64State :=
  let buf := s.buffer ++ [b]
  if buf.length = 32 then
    let s2 := processBlock s buf
    { s2 with totalLen := s.totalLen + 1, buffer := [] }
  else
    { s with totalLen := s.totalLen + 1, buffer := buf }

/-- Streaming update with a chunk of bytes (xxhash.update). -/
def xxUpdate (s : XXH64State) (bs : List Nat) : XXH64State :=
  bs.foldl absorbByte s

/-- Fold the final tail of fewer than 32 pending bytes into the hash:
8-byte words first, then one 4-byte word, then single bytes. -/
def finishTail (h : Nat) : List Nat → Nat
  | b0 :: b1 :: b2 :: b3 :: b4 :: b5 :: b6 :: b7 :: rest =>
      finishTail
        (add64 (mul64 (rotl64 (xor64 h (xxRound 0 (readLE [b0, b1, b2, b3, b4, b5, b6, b7]))) 27)
          PRIME64_1) PRIME64_4) rest
  | b0 :: b1 :: b2 :: b3 :: rest =>
      finishTail
        (add64 (mul64 (rotl64 (xor64 h (mul64 (readLE [b0, b1, b2, b3]) PRIME64_1)) 23)
          PRIME64_2) PRIME64_3) rest
  | b :: rest =>
      finishTail (mul64 (rotl64 (xor64 h (mul64 b PRIME64_5)) 11) PRIME64_1) rest
  | [] => h

def avalanche (h0 : Nat) : Nat :=
  let h1 := xor64 h0 (h0 >>> 33)
  let h2 := mul64 h1 PRIME64_2
  let h3 := xor64 h2 (h2 >>> 29)
  let h4 := mul64 h3 PRIME64_3
  xor64 h4 (h4 >>> 32)

/-- Finalize the streaming state into the 64-bit digest value. -/
def xxDigest (s : XXH64State) : Nat :=
  let h0 :=
    if 32 ≤ s.totalLen then
      mergeRound (mergeRound (mergeRound (mergeRound
        (add64 (add64 (add64 (rotl64 s.v1 1) (rotl64 s.v2 7)) (rotl64 s.v3 12)) (rotl64 s.v4 18))
        s.v1) s.v2) s.v3) s.v4
    else
      PRIME64_5
  avalanche (finishTail (add64 h0 s.totalLen) s.buffer)

def hexChar (n : Nat) : Char :=
  if n < 10 then Char.ofNat (48 + n) else Char.ofNat (87 + n)

/-- Sixteen-character lowercase hex rendering (hexdigest). -/
def hexDigest (n : Nat) : String :=
  String.mk ((List.range 16).map (fun i => hexChar ((n >>> (4 * (15 - i))) % 16)))

/-- Split a byte list into chunks as repeated stream.read(chunkSize) calls
would deliver them.  A read of zero bytes ends the Python while loop at
once, mirrored by the empty chunk list. -/
def chunksOf (c : Nat) (l : List Nat) : List (List Nat) :=
  if h : c = 0 ∨ l = [] then [] else (l.take c) :: chunksOf c (l.drop c)
  termination_by l.length
  decreasing_by
    have hc : c ≠ 0 := fun hc0 => h (Or.inl hc0)
    have hl : l ≠ [] := fun hl0 => h (Or.inr hl0)
    have hpos : 0 < l.length := List.length_pos.mpr hl
    simp only [List.length_drop]
    omega

/-- Embedding of hash.hash_bytes: one-shot digest of the whole sequence. -/
def hash_bytes (data : List Nat) : String :=
  hexDigest (xxDigest (xxUpdate xxInit data))

/-- Embedding of hash.hash_stream: read chunks of chunkSize until the
stream is exhausted, updating the hasher with each chunk. -/
def hash_stream (chunkSize : Nat) (data : List Nat) : String :=
  hexDigest (xxDigest ((chunksOf chunkSize data).foldl (fun s chunk => xxUpdate s chunk) xxInit))

/-- Embedding of hash.hash_file: identical read-update loop over the file
content, with the progress callback dropped (it does not affect the hash). -/
def hash_file (content : List Nat) (chunkSize : Nat) : String :=
  hexDigest (xxDigest ((chunksOf chunkSize content).foldl (fun s chunk => xxUpdate s chunk) xxInit))

end Hash

/-! ## TransferPipeline numerics and artifact paths: src/ltfs_tools/transfer.py -/

namespace Transfer

/-- Guarded throughput accessor TransferResult.phase1_throughput: total MB
divided by the phase duration, 0 when the duration is not positive. -/
def phase1_throughput (bytes_total : Nat) (phase1_duration : ℚ) : ℚ :=
  if phase1_duration > 0 then ((bytes_total : ℚ) / (1024 * 1024)) / phase1_duration else 0

/-- Guarded throughput accessor TransferResult.phase2_throughput. -/
def phase2_throughput (bytes_total : Nat) (phase2_duration : ℚ) : ℚ :=
  if phase2_duration > 0 then ((bytes_total : ℚ) / (1024 * 1024)) / phase2_duration else 0

/-- Guarded throughput accessor TransferResult.phase3_throughput. -/
def phase3_throughput (bytes_total : Nat) (phase3_duration : ℚ) : ℚ :=
  if phase3_duration > 0 then ((bytes_total : ℚ) / (1024 * 1024)) / phase3_duration else 0

/-- Throughput line written to the job log after phases 1, 2 and 3
(transfer.py lines 296-297, 337-338 and 444-445): total_mb / duration with
no zero guard; Python float division raises ZeroDivisionError when the
wall-clock duration is exactly zero. -/
def logThroughput (bytes_total : Nat) (duration : ℚ) : Except String ℚ :=
  if duration = 0 then Except.error "ZeroDivisionError"
  else Except.ok (((bytes_total : ℚ) / (1024 * 1024)) / duration)

/-- Manifest artifact file name built in phase 4 of transfer, and by the
recover and finalize commands: the f-string
tape_name_source_name_timestamp.mhl with the timestamp rendered by
strftime at second granularity. -/
def mhlFileName (tape_name source_name timestamp : String) : String :=
  tape_name ++ "_" ++ source_name ++ "_" ++ timestamp ++ ".mhl"

/-- MHL.save writes the serialized document with Path.write_text, which
creates the file or truncates and replaces an existing file at that path.
The mhl directory is modelled as a partial map from file name to content. -/
def saveMHL (fs : String → Option String) (path content : String) : String → Option String :=
  fun p => if p = path then some content else fs p

/-- Outcome of hashing plus stat-ing one destination file inside the
phase-3 try block: the recomputed digest and stat size, or an OSError. -/
inductive ReadOutcome
  | ok (hash : String) (size : Nat)
  | err
deriving Repr, DecidableEq

/-- A regular file yielded by Path.rglob over the source tree, as phase 1
sees it: relative path text, stat size, content digest, and whether
stat plus hash_file succeed (readable = false stands for the OSError
branch that logs a warning). -/
structure SrcFile where
  relPath : String
  size : Nat
  hash : String
  readable : Bool
deriving Repr, DecidableEq

/-- Embedding of transfer.check_source: count every regular file under the
source root and sum the stat sizes (a stat failure skips only the size). -/
def check_source (files : List SrcFile) : Nat × Nat :=
  (files.length, (files.map (fun f => f.size)).sum)

/-- Python dict assignment source_hashes[k] = v: replace the value at an
existing key in place, else append the new binding at the end. -/
def dictInsert (d : List (String × String × Nat)) (k : String) (v : String × Nat) :
    List (String × String × Nat) :=
  if k ∈ d.map Prod.fst then
    d.map (fun kv => if kv.1 = k then (k, v) else kv)
  else d ++ [(k, v)]

/-- One iteration of the phase-1 walk (transfer.py 203-226): an excluded
file is appended to excluded_files; otherwise a readable file is hashed
and entered into the ledger under its normalized relative path; an OSError
is only a warning and the file enters neither collection.  excl stands for
_should_exclude applied to config.excludes, nfc for utils.normalize_path. -/
def phase1Step (nfc : String → String) (excl : String → Bool)
    (acc : List (String × String × Nat) × List String) (f : SrcFile) :
    List (String × String × Nat) × List String :=
  if excl f.relPath then (acc.1, acc.2 ++ [f.relPath])
  else if f.readable then (dictInsert acc.1 (nfc f.relPath) (f.hash, f.size), acc.2)
  else acc

/-- Phase 1 of transfer: fold the walk over the source files in rglob
order, producing the ledger (source_hashes) and the excluded list. -/
def phase1 (nfc : String → String) (excl : String → Bool) (files : List SrcFile) :
    List (String × String × Nat) × List String :=
  files.foldl (phase1Step nfc excl) ([], [])

/-- Phase 4 of transfer (transfer.py 466-483) iterates source_hashes.items()
adding exactly one Manifest record per ledger entry, so the Manifest record
count is the ledger length. -/
def manifestRecordCount (ledger : List (String × String × Nat)) : Nat := ledger.length

/-- A file yielded by Path.rglob over the destination subtree during the
phase-3 walk, with the outcome of re-reading it. -/
structure DestFile where
  relPath : String
  outcome : ReadOutcome
deriving Repr, DecidableEq

/-- Verification counters accumulated by phase 3 into the TransferResult. -/
structure Phase3Result where
  files_verified : Nat
  files_failed : Nat
  failed_files : List String
deriving Repr, DecidableEq

/-- Dictionary lookup source_hashes[rel_path] on the phase-1 ledger. -/
def ledgerLookup (ledger : List (String × String × Nat)) (k : String) :
    Option (String × Nat) :=
  match ledger with
  | [] => none
  | (p, v) :: rest => if p = k then some v else ledgerLookup rest k

/-- One iteration of the phase-3 destination walk (transfer.py 388-417):
normalize the path; skip files absent from the ledger; otherwise compare
the recomputed digest with the ledger digest — equal marks verified,
unequal marks a failure with reason hash mismatch, and an OSError while
re-reading marks a failure with reason read error.  The stored expected
size is retrieved but never compared (it only feeds the progress bar). -/
def verifyStep (nfc : String → String) (ledger : List (String × String × Nat))
    (acc : Phase3Result) (d : DestFile) : Phase3Result :=
  let rel := nfc d.relPath
  match ledgerLookup ledger rel with
  | none => acc
  | some (srcHash, _expectedSize) =>
      match d.outcome with
      | ReadOutcome.ok destHash _size =>
          if srcHash = destHash then
            { acc with files_verified := acc.files_verified + 1 }
          else
            { acc with files_failed := acc.files_failed + 1
                       failed_files := acc.failed_files ++ [rel ++ " (hash mismatch)"] }
      | ReadOutcome.err =>
          { acc with files_failed := acc.files_failed + 1
                     failed_files := acc.failed_files ++ [rel ++ " (read error)"] }

/-- One iteration of the phase-3 missing check (transfer.py 419-431): a
ledger key not seen among the normalized destination paths is marked
failed with reason missing. -/
def missingStep (destNames : List String) (acc : Phase3Result)
    (kv : String × String × Nat) : Phase3Result :=
  if kv.1 ∈ destNames then acc
  else { acc with files_failed := acc.files_failed + 1
                  failed_files := acc.failed_files ++ [kv.1 ++ " (missing)"] }

/-- Phase 3 of transfer: walk the destination subtree in scan order
verifying each ledgered file, then mark every ledger key not observed on
the destination as missing. -/
def phase3 (nfc : String → String) (ledger : List (String × String × Nat))
    (dest : List DestFile) : Phase3Result :=
  let afterWalk := dest.foldl (verifyStep nfc ledger) ⟨0, 0, []⟩
  ledger.foldl (missingStep (dest.map (fun d => nfc d.relPath))) afterWalk

end Transfer

/-! ## Catalog store: src/ltfs_tools/catalog_db.py

The SQLite database is modelled relationally: the tapes table and the
files table are lists of rows in insertion order.  Row identity for files
is the UNIQUE(tape_name, path) key; the autoincrement id and the FTS
mirror table are not needed by the claims under study. -/

namespace CatalogDB

/-- A row of the tapes table (catalog_db.py schema, lines 130-139). -/
structure TapeRecord where
  name : String
  volume_uuid : Option String
  barcode : Option String
  created_at : Option String
  total_bytes : Nat
  file_count : Nat
deriving Repr, DecidableEq

/-- A row of the files table (catalog_db.py schema, lines 141-152);
timestamps are kept as their stored isoformat text. -/
structure FileRecord where
  tape_name : String
  path : String
  size : Nat
  mtime : Option String
  xxhash : Option String
  archived_at : Option String
deriving Repr, DecidableEq

/-- A search row as returned by find_by_hash and search. -/
structure SearchResult where
  tape_name : String
  path : String
  size : Nat
  mtime : Option String
  xxhash : Option String
deriving Repr, DecidableEq

/-- The persisted catalog state: both tables. -/
structure CatalogState where
  tapes : List TapeRecord
  files : List FileRecord
deriving Repr, DecidableEq

/-- SQL COALESCE(excluded.x, tapes.x) used by the add_tape upsert. -/
def coalesce (new old : Option String) : Option String :=
  match new with
  | some v => some v
  | none => old

/-- Embedding of CatalogDB.add_tape: INSERT with ON CONFLICT(name) keeping
existing metadata unless the new value is non-null; a fresh row gets the
schema defaults total_bytes 0 and file_count 0. -/
def add_tape (db : CatalogState) (name : String) (uuid barcode created : Option String) :
    CatalogState :=
  if db.tapes.any (fun t => decide (t.name = name)) then
    { db with tapes := db.tapes.map (fun t =>
        if t.name = name then
          { t with volume_uuid := coalesce uuid t.volume_uuid
                   barcode := coalesce barcode t.barcode
                   created_at := coalesce created t.created_at }
        else t) }
  else
    { db with tapes := db.tapes ++
        [{ name := name, volume_uuid := uuid, barcode := barcode, created_at := created,
           total_bytes := 0, file_count := 0 }] }

/-- The INSERT OR IGNORE INTO tapes (name) at the start of add_files. -/
def ensureTape (db : CatalogState) (name : String) : CatalogState :=
  if db.tapes.any (fun t => decide (t.name = name)) then db
  else
    { db with tapes := db.tapes ++
        [{ name := name, volume_uuid := none, barcode := none, created_at := none,
           total_bytes := 0, file_count := 0 }] }

/-- The per-row INSERT ... ON CONFLICT(tape_name, path) DO UPDATE inside
add_files: replace the row at an existing key in place, else append. -/
def upsertFile (files : List FileRecord) (r : FileRecord) : List FileRecord :=
  if files.any (fun f => decide (f.tape_name = r.tape_name ∧ f.path = r.path)) then
    files.map (fun f => if f.tape_name = r.tape_name ∧ f.path = r.path then r else f)
  else files ++ [r]

/-- The closing UPDATE of add_files: set the tape row's file_count and
total_bytes from COUNT(*) and COALESCE(SUM(size), 0) over that tape's
file rows. -/
def recomputeStats (db : CatalogState) (name : String) : CatalogState :=
  { db with tapes := db.tapes.map (fun t =>
      if t.name = name then
        { t with
          file_count := (db.files.filter (fun f => decide (f.tape_name = name))).length
          total_bytes :=
            ((db.files.filter (fun f => decide (f.tape_name = name))).map
              (fun f => f.size)).sum }
      else t) }

/-- Embedding of CatalogDB.add_files: an empty batch returns at once;
otherwise ensure the tape row exists, upsert every (path, size, mtime,
xxhash) tuple under its normalized path, and recompute the tape's
aggregates from the files table.  nfc stands for utils.normalize_path. -/
def add_files (nfc : String → String) (db : CatalogState) (tape_name : String)
    (files : List (String × Nat × Option String × Option String))
    (archived_at : Option String) : CatalogState :=
  if files = [] then db
  else
    let db1 := ensureTape db tape_name
    let db2 := files.foldl (fun d f =>
        let r : FileRecord :=
          { tape_name := tape_name, path := nfc f.1, size := f.2.1, mtime := f.2.2.1,
            xxhash := f.2.2.2, archived_at := archived_at }
        { d with files := upsertFile d.files r }) db1
    recomputeStats db2 tape_name

/-- Embedding of CatalogDB.delete_tape: DELETE the tape's file rows, then
the tape row itself. -/
def delete_tape (db : CatalogState) (name : String) : CatalogState :=
  { tapes := db.tapes.filter (fun t => !decide (t.name = name))
    files := db.files.filter (fun f => !decide (f.tape_name = name)) }

/-- SQL ORDER BY tape_name, path as a Bool comparator: SQLite orders TEXT
by byte value, which on UTF-8 coincides with code-point order, embedded
here as the lexicographic order on the character lists. -/
def rowLE (a b : SearchResult) : Bool :=
  decide (a.tape_name.data < b.tape_name.data) ||
    (decide (a.tape_name = b.tape_name) && !decide (b.path.data < a.path.data))

/-- Embedding of CatalogDB.find_by_hash: SELECT every file row WHERE
xxhash equals the query, ORDER BY tape_name, path; the WHERE clause
mentions only the digest column, never size. -/
def find_by_hash (db : CatalogState) (xxhash : String) : List SearchResult :=
  ((db.files.filter (fun f => decide (f.xxhash = some xxhash))).map
    (fun f => ({ tape_name := f.tape_name, path := f.path, size := f.size,
                 mtime := f.mtime, xxhash := f.xxhash } : SearchResult))).mergeSort rowLE

/-- The catalog-mutating operations a completed job or a volume removal
performs, in the order the callers issue them. -/
inductive CatOp
  | addTape (name : String) (uuid barcode created : Option String)
  | addFiles (tape_name : String)
      (files : List (String × Nat × Option String × Option String))
      (archived_at : Option String)
  | deleteTape (name : String)

/-- Apply one catalog operation. -/
def applyOp (nfc : String → String) (db : CatalogState) : CatOp → CatalogState
  | CatOp.addTape n u b c => add_tape db n u b c
  | CatOp.addFiles t fs a => add_files nfc db t fs a
  | CatOp.deleteTape n => delete_tape db n

/-- Aggregate correctness: every stored tape row's file_count and
total_bytes equal the count and size sum of that tape's file rows. -/
def AggOk (db : CatalogState) : Prop :=
  ∀ t ∈ db.tapes,
    t.file_count = (db.files.filter (fun f => decide (f.tape_name = t.name))).length ∧
    t.total_bytes =
      ((db.files.filter (fun f => decide (f.tape_name = t.name))).map (fun f => f.size)).sum

/-- Referential soundness maintained by the operations: every file row's
tape has a tape row. -/
def TapesOk (db : CatalogState) : Prop :=
  ∀ f ∈ db.files, ∃ t ∈ db.tapes, t.name = f.tape_name

end CatalogDB

namespace Transfer

/-- State a job threads through phases 4 and 5: the mhl directory (a
partial map from file name to Manifest document) and the catalog
database. -/
structure JobState where
  mhlDir : String → Option String
  catalog : CatalogDB.CatalogState

/-- Phase 4: persist the Manifest document at the mhl path (MHL.save via
write_text). -/
def phase4 (st : JobState) (path doc : String) : JobState :=
  { st with mhlDir := saveMHL st.mhlDir path doc }

/-- Phase 5b of transfer (transfer.py 519-542) and of recover (cli.py
500-532) and finalize (cli.py 687-708): the whole catalog-database
interaction runs inside try/except Exception; on success the catalog is
replaced by the updated state, and any raised failure — including any
database error — is caught and logged as a warning, the update abandoned.
The database work is abstracted as a state transformer that either
returns the updated catalog or raises. -/
def phase5b (st : JobState)
    (dbUpdate : CatalogDB.CatalogState → Except String CatalogDB.CatalogState) :
    JobState × Option String :=
  match dbUpdate st.catalog with
  | Except.ok c => ({ st with catalog := c }, none)
  | Except.error e => (st, some ("Warning: Could not update catalog database: " ++ e))

/-- Phases 4 then 5b of a job (transfer, or a recovery run): emit the
Manifest, then attempt the catalog update.  The composition is a total
function: it always returns the final state and the optional warning, so
the job goes on to return its result whether or not the update raised. -/
def runPhases45 (st : JobState) (path doc : String)
    (dbUpdate : CatalogDB.CatalogState → Except String CatalogDB.CatalogState) :
    JobState × Option String :=
  phase5b (phase4 st path doc) dbUpdate

end Transfer

/-! ## Manifest serialization: src/ltfs_tools/mhl.py

Python strings are modelled as lists of code points (Python str may hold
lone surrogates, which a Lean Char cannot).  Serialization is modelled at
the element level: ElementTree round-trips element structure and text
exactly (escaping on write, unescaping on parse, leaf text preserved by
the pretty printer), provided every character written is valid in XML
1.0 — an invalid character makes the saved document fail to parse on
load, since the fallback writer emits it raw.  Timestamps are rendered
by strftime with %Y-%m-%dT%H:%M:%SZ and read back by strptime with the
same format; all datetimes the pipeline stores are UTC. -/

namespace MHL

/-- A Python string as its code points. -/
abbrev PyStr := List Nat

/-- The code points removed by mhl.sanitize_xml_string's regular
expression: C0 controls except tab, LF and CR, then DEL through C1
controls, surrogates, and the two non-characters U+FFFE and U+FFFF. -/
def isDroppedBySanitize (c : Nat) : Bool :=
  (c ≤ 0x08) || (c = 0x0b) || (c = 0x0c) || (0x0e ≤ c && c ≤ 0x1f) ||
    (0x7f ≤ c && c ≤ 0x9f) || (0xd800 ≤ c && c ≤ 0xdfff) || (c = 0xfffe) || (c = 0xffff)

/-- Embedding of mhl.sanitize_xml_string: drop every matched code point. -/
def sanitize_xml_string (s : PyStr) : PyStr :=
  s.filter (fun c => !isDroppedBySanitize c)

/-- Valid XML 1.0 character, as the parser accepts it. -/
def isXmlChar (c : Nat) : Bool :=
  (c = 0x9) || (c = 0xA) || (c = 0xD) || (0x20 ≤ c && c ≤ 0xD7FF) ||
    (0xE000 ≤ c && c ≤ 0xFFFD) || (0x10000 ≤ c && c ≤ 0x10FFFF)

/-- Every character of the text is XML 1.0 valid. -/
def xmlClean (s : PyStr) : Bool := s.all isXmlChar

/-- A datetime value as the pipeline stores it (tzinfo utc implied). -/
structure PyDateTime where
  year : Nat
  month : Nat
  day : Nat
  hour : Nat
  minute : Nat
  second : Nat
  microsecond : Nat
deriving Repr, DecidableEq

/-- Field ranges under which strftime emits the fixed-width rendering
below (real datetimes are far inside these bounds). -/
def TsValid (d : PyDateTime) : Prop :=
  d.year < 10000 ∧ d.month < 100 ∧ d.day < 100 ∧ d.hour < 100 ∧ d.minute < 100 ∧
    d.second < 100

instance (d : PyDateTime) : Decidable (TsValid d) := by
  rw [TsValid]
  infer_instance

/-- Second truncation performed by the %S rendering: the microsecond field
is simply not printed. -/
def truncTs (d : PyDateTime) : PyDateTime :=
  { d with microsecond := 0 }

/-- Embedding of datetime.strftime with %Y-%m-%dT%H:%M:%SZ on in-range
fields: zero-padded year to four digits and the rest to two, literal
separators, no sub-second part.  Code points: 45 is the dash, 84 the T,
58 the colon, 90 the Z. -/
def formatTs (d : PyDateTime) : PyStr :=
  [48 + d.year / 1000 % 10, 48 + d.year / 100 % 10, 48 + d.year / 10 % 10, 48 + d.year % 10,
   45, 48 + d.month / 10 % 10, 48 + d.month % 10,
   45, 48 + d.day / 10 % 10, 48 + d.day % 10,
   84, 48 + d.hour / 10 % 10, 48 + d.hour % 10,
   58, 48 + d.minute / 10 % 10, 48 + d.minute % 10,
   58, 48 + d.second / 10 % 10, 48 + d.second % 10,
   90]

/-- ASCII decimal digit code point. -/
def isDigitCp (c : Nat) : Bool := 48 ≤ c && c ≤ 57

/-- Embedding of datetime.strptime with %Y-%m-%dT%H:%M:%SZ on the
fixed-width strings the formatter produces, followed by the replace to
tzinfo utc: twenty code points, digits in the numeric positions and the
literal separators between them; any other shape raises ValueError,
mapped to none.  The parsed value carries microsecond 0. -/
def parseTs (s : PyStr) : Option PyDateTime :=
  match s with
  | [y1, y2, y3, y4, c1, mo1, mo2, c2, d1, d2, c3, h1, h2, c4, mi1, mi2, c5, s1, s2, c6] =>
      if c1 = 45 ∧ c2 = 45 ∧ c3 = 84 ∧ c4 = 58 ∧ c5 = 58 ∧ c6 = 90 ∧
          ([y1, y2, y3, y4, mo1, mo2, d1, d2, h1, h2, mi1, mi2, s1, s2].all isDigitCp) then
        some { year := (y1 - 48) * 1000 + (y2 - 48) * 100 + (y3 - 48) * 10 + (y4 - 48),
               month := (mo1 - 48) * 10 + (mo2 - 48),
               day := (d1 - 48) * 10 + (d2 - 48),
               hour := (h1 - 48) * 10 + (h2 - 48),
               minute := (mi1 - 48) * 10 + (mi2 - 48),
               second := (s1 - 48) * 10 + (s2 - 48),
               microsecond := 0 }
      else none
  | _ => none

/-- Decimal rendering str(n) of a non-negative int. -/
def natDigits (n : Nat) : PyStr :=
  if n < 10 then [48 + n] else natDigits (n / 10) ++ [48 + n % 10]
  termination_by n
  decreasing_by
    rename_i hlt
    exact Nat.div_lt_self (by omega) (by omega)

/-- Embedding of int(text) restricted to the digit strings str emits (the
only shape the round trip reads back); anything else raises ValueError,
mapped to none. -/
def parseNat (s : PyStr) : Option Nat :=
  if s ≠ [] ∧ s.all isDigitCp then
    some (s.foldl (fun a c => a * 10 + (c - 48)) 0)
  else none

/-- Embedding of mhl.HashEntry. -/
structure HashEntry where
  file : PyStr
  size : Nat
  xxhash64be : PyStr
  last_modification_date : Option PyDateTime
  hash_date : Option PyDateTime
deriving Repr, DecidableEq

/-- The hash XML element as HashEntry.to_element builds it: the child
texts in document order, optional children absent when the field is
falsy. -/
structure HashElem where
  fileText : PyStr
  sizeText : PyStr
  modText : Option PyStr
  xxhashText : PyStr
  hashDateText : Option PyStr
deriving Repr, DecidableEq

/-- Embedding of HashEntry.to_element: the file text is NFC-normalized
then XML-sanitized, the size rendered by str, the digest written raw, and
each present date rendered by strftime.  nfc stands for
utils.normalize_path. -/
def toElement (nfc : PyStr → PyStr) (e : HashEntry) : HashElem :=
  { fileText := sanitize_xml_string (nfc e.file)
    sizeText := natDigits e.size
    modText := e.last_modification_date.map formatTs
    xxhashText := e.xxhash64be
    hashDateText := e.hash_date.map formatTs }

/-- Embedding of HashEntry.from_element: the file text is NFC-normalized,
int(size text) raises on a malformed size (none), the digest is read raw,
and each date text is parsed when non-empty, a parse failure leaving the
field None (the ValueError is caught). -/
def fromElement (nfc : PyStr → PyStr) (el : HashElem) : Option HashEntry :=
  match parseNat el.sizeText with
  | none => none
  | some size =>
      some { file := nfc el.fileText
             size := size
             xxhash64be := el.xxhashText
             last_modification_date :=
               el.modText.bind (fun s => if s = [] then none else parseTs s)
             hash_date :=
               el.hashDateText.bind (fun s => if s = [] then none else parseTs s) }

/-- Cleanliness of an optional text child. -/
def optClean : Option PyStr → Bool
  | none => true
  | some s => xmlClean s

/-- Every text written for this hash element is XML 1.0 valid; otherwise
the saved document is not well-formed and ET.parse raises on load. -/
def elemClean (el : HashElem) : Bool :=
  xmlClean el.fileText && xmlClean el.sizeText && xmlClean el.xxhashText &&
    optClean el.modText && optClean el.hashDateText

/-- The record-reading loop of MHL.load over the parsed hash elements in
document order; a from_element failure propagates as the load raising. -/
def loadElems (nfc : PyStr → PyStr) : List HashElem → Option (List HashEntry)
  | [] => some []
  | el :: rest =>
      match fromElement nfc el, loadElems nfc rest with
      | some e, some es => some (e :: es)
      | _, _ => none

/-- Record-level composition of MHL.save and MHL.load: serialize every
entry to its hash element in order; when every character written is XML
1.0 valid the document parses back and the entries are rebuilt in order,
otherwise the load raises (none). -/
def saveLoadRecords (nfc : PyStr → PyStr) (entries : List HashEntry) :
    Option (List HashEntry) :=
  let elems := entries.map (toElement nfc)
  if elems.all elemClean then loadElems nfc elems else none

end MHL

namespace Hash

theorem chunksOf_flatten (c : Nat) (hc : 0 < c) (l : List Nat) :
    (chunksOf c l).flatten = l := by
  generalize hn : l.length = n
  induction n using Nat.strong_induction_on generalizing l with
  | _ n ih =>
    rw [chunksOf]
    split
    · rename_i h
      rcases h with h | h
      · omega
      · simp [h]
    · rename_i h
      have hne : l ≠ [] := fun h0 => h (Or.inr h0)
      have hpos : 0 < l.length := List.length_pos.mpr hne
      have hlen : (l.drop c).length < n := by
        simp only [List.length_drop]
        omega
      rw [List.flatten_cons, ih (l.drop c).length hlen (l.drop c) rfl]
      exact List.take_append_drop c l

theorem foldl_xxUpdate_chunks (chunks : List (List Nat)) (s : XXH64State) :
    chunks.foldl (fun t chunk => xxUpdate t chunk) s = xxUpdate s chunks.flatten := by
  induction chunks generalizing s with
  | nil => simp [xxUpdate]
  | cons a rest ih =>
      simp only [List.foldl_cons, List.flatten_cons]
      rw [ih (xxUpdate s a)]
      simp [xxUpdate, List.foldl_append]

/-- C10: the digest is independent of the read chunk size: for every byte
sequence and every chunk size at least 1, the streamed digest computed by
hash_stream, and by the identical read loop of hash_file, equals the
one-shot digest hash_bytes of the entire sequence. -/
theorem C10_hash_chunk_independent (data : List Nat) (c : Nat) (hc : 1 ≤ c) :
    hash_stream c data = hash_bytes data ∧ hash_file data c = hash_bytes data := by
  unfold hash_stream hash_file hash_bytes
  rw [foldl_xxUpdate_chunks, chunksOf_flatten c hc data]
  exact ⟨rfl, rfl⟩

/-- Witness for C10 at the concrete byte sequence [0, 1, 2, 3, 4] with
chunk size 3. -/
theorem C10_witness :
    1 ≤ 3 ∧ (hash_stream 3 [0, 1, 2, 3, 4] = hash_bytes [0, 1, 2, 3, 4] ∧
      hash_file [0, 1, 2, 3, 4] 3 = hash_bytes [0, 1, 2, 3, 4]) :=
  ⟨by decide, C10_hash_chunk_independent [0, 1, 2, 3, 4] 3 (by decide)⟩

end Hash

namespace Transfer

/-- C7: the result object's throughput accessors are guarded and yield the
defined value 0 at a zero-duration phase, and a throughput line computes
bytes / duration when the duration is nonzero; but the throughput lines
written to the job log after phases 1, 2 and 3 divide without a zero
guard, so a phase of wall-clock duration 0 (possible for an empty source
tree) raises ZeroDivisionError instead of reporting a defined value.  This
evaluates the embedded code at that failing input. -/
theorem C7_zero_duration_log_line :
    phase1_throughput 0 0 = 0 ∧ phase2_throughput 0 0 = 0 ∧ phase3_throughput 0 0 = 0 ∧
    logThroughput (2 * 1024 * 1024) 4 = Except.ok (1 / 2) ∧
    logThroughput 0 0 = Except.error "ZeroDivisionError" := by
  refine ⟨rfl, rfl, rfl, ?_, rfl⟩
  rw [logThroughput]
  norm_num

/-- C8 counterexample: two jobs against the same tape name, source name and
start second build the same Manifest path, and the second save replaces the
first document in the mhl directory, so a Manifest file is overwritten. -/
theorem C8_counterexample :
    mhlFileName "TAPE01" "proj" "20260101_120000" = mhlFileName "TAPE01" "proj" "20260101_120000" ∧
    saveMHL (saveMHL (fun _ => none) (mhlFileName "TAPE01" "proj" "20260101_120000") "doc1")
        (mhlFileName "TAPE01" "proj" "20260101_120000") "doc2"
        (mhlFileName "TAPE01" "proj" "20260101_120000") = some "doc2" ∧
    ("doc2" : String) ≠ "doc1" := by
  refine ⟨rfl, by simp [saveMHL], by decide⟩

/-- C8 amended: the Manifest path is derived solely from tape name, source
name and start-time string; two jobs whose three identifiers concatenate to
different strings write distinct paths, and the later job leaves the
earlier Manifest untouched; only jobs sharing tape name, source name and
start second collide (and then the later save overwrites, as the
counterexample shows). -/
theorem C8_distinct_names_no_overwrite (fs : String → Option String)
    (t1 s1 ts1 t2 s2 ts2 c1 c2 : String)
    (hne : t1 ++ "_" ++ s1 ++ "_" ++ ts1 ≠ t2 ++ "_" ++ s2 ++ "_" ++ ts2) :
    mhlFileName t1 s1 ts1 ≠ mhlFileName t2 s2 ts2 ∧
    saveMHL (saveMHL fs (mhlFileName t1 s1 ts1) c1) (mhlFileName t2 s2 ts2) c2
      (mhlFileName t1 s1 ts1) = some c1 := by
  have hcancel : ∀ a b z : String, a ++ z = b ++ z → a = b := by
    intro a b z hz
    have hd : a.data ++ z.data = b.data ++ z.data := by
      simpa [String.data_append] using congrArg String.data hz
    have hab : a.data = b.data := List.append_cancel_right hd
    cases a
    cases b
    exact congrArg String.mk (by simpa using hab)
  have hname : mhlFileName t1 s1 ts1 ≠ mhlFileName t2 s2 ts2 := by
    intro h
    exact hne (hcancel _ _ ".mhl" h)
  refine ⟨hname, ?_⟩
  simp [saveMHL, hname]

/-- Witness for C8 amended at two jobs sharing tape and source but with
distinct start seconds. -/
theorem C8_witness :
    (("A" : String) ++ "_" ++ "B" ++ "_" ++ "T1" ≠ ("A" : String) ++ "_" ++ "B" ++ "_" ++ "T2") ∧
    (mhlFileName "A" "B" "T1" ≠ mhlFileName "A" "B" "T2" ∧
     saveMHL (saveMHL (fun _ => none) (mhlFileName "A" "B" "T1") "d1")
       (mhlFileName "A" "B" "T2") "d2" (mhlFileName "A" "B" "T1") = some "d1") :=
  ⟨by decide, C8_distinct_names_no_overwrite (fun _ => none) "A" "B" "T1" "A" "B" "T2" "d1" "d2"
    (by decide)⟩

theorem ledgerLookup_isSome_iff (ledger : List (String × String × Nat)) (k : String) :
    (ledgerLookup ledger k).isSome = true ↔ k ∈ ledger.map Prod.fst := by
  induction ledger with
  | nil => simp [ledgerLookup]
  | cons kv rest ih =>
      rcases kv with ⟨p, v⟩
      by_cases hp : p = k
      · subst hp
        simp [ledgerLookup]
      · simp only [ledgerLookup, if_neg hp, List.map_cons, List.mem_cons, ih]
        constructor
        · exact Or.inr
        · rintro (h | h)
          · exact absurd h.symm hp
          · exact h

theorem ledgerLookup_mem {ledger : List (String × String × Nat)} {k : String}
    {v : String × Nat} (h : ledgerLookup ledger k = some v) : (k, v) ∈ ledger := by
  induction ledger with
  | nil => simp [ledgerLookup] at h
  | cons kv rest ih =>
      rcases kv with ⟨p, w⟩
      by_cases hp : p = k
      · subst hp
        rw [ledgerLookup, if_pos rfl] at h
        cases h
        exact List.mem_cons_self _ _
      · rw [ledgerLookup, if_neg hp] at h
        exact List.mem_cons_of_mem _ (ih h)

/-- A destination walk in which every file found at a ledgered key reads
back matching the ledger digest produces no failures and one verification
per such file. -/
theorem verify_fold_all_ok (nfc : String → String) (ledger : List (String × String × Nat))
    (dest : List DestFile) (acc : Phase3Result)
    (hmatch : ∀ d ∈ dest, ∀ v, ledgerLookup ledger (nfc d.relPath) = some v →
        d.outcome = ReadOutcome.ok v.1 v.2) :
    dest.foldl (verifyStep nfc ledger) acc =
      { acc with files_verified := acc.files_verified +
          dest.countP (fun d => (ledgerLookup ledger (nfc d.relPath)).isSome) } := by
  induction dest generalizing acc with
  | nil => simp
  | cons d rest ih =>
      have hmatch' : ∀ d ∈ rest, ∀ v, ledgerLookup ledger (nfc d.relPath) = some v →
          d.outcome = ReadOutcome.ok v.1 v.2 :=
        fun d hd => hmatch d (List.mem_cons_of_mem _ hd)
      simp only [List.foldl_cons, List.countP_cons]
      cases hl : ledgerLookup ledger (nfc d.relPath) with
      | none =>
          rw [show verifyStep nfc ledger acc d = acc by rw [verifyStep, hl]]
          rw [ih acc hmatch']
          simp [hl]
      | some v =>
          have hout := hmatch d (List.mem_cons_self _ _) v hl
          have hstep : verifyStep nfc ledger acc d =
              { acc with files_verified := acc.files_verified + 1 } := by
            rw [verifyStep, hl, hout]
            simp
          rw [hstep, ih _ hmatch']
          simp [hl, Nat.add_assoc, Nat.add_comm 1]

/-- The missing-file pass appends one missing failure per ledger key not
among the normalized destination names, in ledger order. -/
theorem missing_fold (destNames : List String) (ledger : List (String × String × Nat))
    (acc : Phase3Result) :
    ledger.foldl (missingStep destNames) acc =
      { acc with
        files_failed := acc.files_failed +
          ((ledger.map Prod.fst).filter (fun k => !decide (k ∈ destNames))).length,
        failed_files := acc.failed_files ++
          ((ledger.map Prod.fst).filter (fun k => !decide (k ∈ destNames))).map
            (fun k => k ++ " (missing)") } := by
  induction ledger generalizing acc with
  | nil => simp
  | cons kv rest ih =>
      simp only [List.foldl_cons, List.map_cons, List.filter_cons]
      by_cases hm : kv.1 ∈ destNames
      · rw [show missingStep destNames acc kv = acc by rw [missingStep, if_pos hm]]
        rw [ih acc]
        simp [hm]
      · rw [show missingStep destNames acc kv =
            { acc with files_failed := acc.files_failed + 1,
                       failed_files := acc.failed_files ++ [kv.1 ++ " (missing)"] } by
          rw [missingStep, if_neg hm]]
        rw [ih]
        simp [hm, Nat.add_assoc, Nat.add_comm 1]

/-- Two duplicate-free string lists with the same members have the same
length, applied to a filtered list against its member list. -/
theorem countP_mem_eq_length {D K : List String} (hD : D.Nodup) (hK : K.Nodup)
    (hsub : ∀ k ∈ K, k ∈ D) :
    D.countP (fun x => decide (x ∈ K)) = K.length := by
  rw [List.countP_eq_length_filter]
  have hfn : (D.filter (fun x => decide (x ∈ K))).Nodup := hD.filter _
  have h1 : (D.filter (fun x => decide (x ∈ K))).toFinset = K.toFinset := by
    ext x
    simp only [List.mem_toFinset, List.mem_filter, decide_eq_true_eq]
    exact ⟨fun h => h.2, fun h => ⟨hsub x h, h⟩⟩
  calc (D.filter (fun x => decide (x ∈ K))).length
      = (D.filter (fun x => decide (x ∈ K))).toFinset.card :=
        (List.toFinset_card_of_nodup hfn).symm
    _ = K.toFinset.card := by rw [h1]
    _ = K.length := List.toFinset_card_of_nodup hK

/-- C2: verification soundness.  For a transfer job whose destination
subtree contains a byte-for-byte identical (hence digest- and size-equal,
readable) copy of every ledgered file — with normalized paths unambiguous
on both sides — phase 3 reports verified equal to the ledger total, zero
failures, and an empty failure list (so nothing is reported missing or
mismatched).  Extra destination files not in the ledger are ignored. -/
theorem C2_verification_soundness (nfc : String → String)
    (ledger : List (String × String × Nat)) (dest : List DestFile)
    (hK : (ledger.map Prod.fst).Nodup)
    (hD : (dest.map (fun d => nfc d.relPath)).Nodup)
    (hpresent : ∀ kv ∈ ledger, ∃ d ∈ dest,
        nfc d.relPath = kv.1 ∧ d.outcome = ReadOutcome.ok kv.2.1 kv.2.2) :
    phase3 nfc ledger dest =
      { files_verified := ledger.length, files_failed := 0, failed_files := [] } := by
  have hmatch : ∀ d ∈ dest, ∀ v, ledgerLookup ledger (nfc d.relPath) = some v →
      d.outcome = ReadOutcome.ok v.1 v.2 := by
    intro d hd v hv
    have hkv : (nfc d.relPath, v) ∈ ledger := ledgerLookup_mem hv
    obtain ⟨d0, hd0, hpath, hout⟩ := hpresent _ hkv
    have hdd : d = d0 := List.inj_on_of_nodup_map hD hd hd0 (by rw [hpath])
    rw [hdd]
    exact hout
  have hsub : ∀ k ∈ ledger.map Prod.fst, k ∈ dest.map (fun d => nfc d.relPath) := by
    intro k hk
    obtain ⟨kv, hkv, rfl⟩ := List.mem_map.mp hk
    obtain ⟨d0, hd0, hpath, _⟩ := hpresent _ hkv
    exact List.mem_map.mpr ⟨d0, hd0, hpath⟩
  have hcount : dest.countP (fun d => (ledgerLookup ledger (nfc d.relPath)).isSome) =
      ledger.length := by
    have h1 : dest.countP (fun d => (ledgerLookup ledger (nfc d.relPath)).isSome) =
        (dest.map (fun d => nfc d.relPath)).countP
          (fun x => (ledgerLookup ledger x).isSome) := by
      rw [List.countP_map]
      rfl
    rw [h1]
    have h2 : (dest.map (fun d => nfc d.relPath)).countP
          (fun x => (ledgerLookup ledger x).isSome) =
        (dest.map (fun d => nfc d.relPath)).countP
          (fun x => decide (x ∈ ledger.map Prod.fst)) := by
      apply List.countP_congr
      intro x _
      by_cases hx : x ∈ ledger.map Prod.fst
      · simp [hx, (ledgerLookup_isSome_iff ledger x).mpr hx]
      · have : ¬ (ledgerLookup ledger x).isSome = true :=
          fun hs => hx ((ledgerLookup_isSome_iff ledger x).mp hs)
        simp [hx, Bool.not_eq_true] at this ⊢
        exact this
    rw [h2]
    calc ((dest.map (fun d => nfc d.relPath)).countP
          (fun x => decide (x ∈ ledger.map Prod.fst)))
        = (ledger.map Prod.fst).length := countP_mem_eq_length hD hK hsub
      _ = ledger.length := List.length_map _ _
  have hnomiss : (ledger.map Prod.fst).filter
      (fun k => !decide (k ∈ dest.map (fun d => nfc d.relPath))) = [] := by
    rw [List.filter_eq_nil_iff]
    intro k hk
    simp [hsub k hk]
  rw [phase3, verify_fold_all_ok nfc ledger dest _ hmatch, missing_fold, hnomiss]
  simp [hcount]

/-- Witness for C2 at a two-file ledger whose copies both sit on the
destination (in a different scan order, next to an extra unledgered file). -/
theorem C2_witness :
    (([(("a" : String), ("h1" : String), (1 : Nat)), ("b", "h2", 2)]).map Prod.fst).Nodup ∧
    (([⟨"b", ReadOutcome.ok "h2" 2⟩, ⟨"x", ReadOutcome.ok "z" 9⟩,
        ⟨"a", ReadOutcome.ok "h1" 1⟩] : List DestFile).map
      (fun d => (fun s => s) d.relPath)).Nodup ∧
    (∀ kv ∈ [(("a" : String), ("h1" : String), (1 : Nat)), ("b", "h2", 2)],
      ∃ d ∈ ([⟨"b", ReadOutcome.ok "h2" 2⟩, ⟨"x", ReadOutcome.ok "z" 9⟩,
        ⟨"a", ReadOutcome.ok "h1" 1⟩] : List DestFile),
        (fun s => s) d.relPath = kv.1 ∧ d.outcome = ReadOutcome.ok kv.2.1 kv.2.2) ∧
    phase3 (fun s => s) [("a", "h1", 1), ("b", "h2", 2)]
      [⟨"b", ReadOutcome.ok "h2" 2⟩, ⟨"x", ReadOutcome.ok "z" 9⟩,
        ⟨"a", ReadOutcome.ok "h1" 1⟩] =
      { files_verified := 2, files_failed := 0, failed_files := [] } :=
  ⟨by decide, by decide, by decide,
    C2_verification_soundness (fun s => s) [("a", "h1", 1), ("b", "h2", 2)]
      [⟨"b", ReadOutcome.ok "h2" 2⟩, ⟨"x", ReadOutcome.ok "z" 9⟩,
        ⟨"a", ReadOutcome.ok "h1" 1⟩] (by decide) (by decide) (by decide)⟩

/-- A duplicate-free list filters to the singleton of its unique member
satisfying the predicate. -/
theorem filter_eq_singleton_of {K : List String} {m : String} (p : String → Bool)
    (hK : K.Nodup) (hm : m ∈ K) (hp : ∀ k ∈ K, (p k = true ↔ k = m)) :
    K.filter p = [m] := by
  induction K with
  | nil => simp at hm
  | cons a rest ih =>
      have hnd := List.nodup_cons.mp hK
      rcases List.mem_cons.mp hm with rfl | hmem
      · have hpa : p m = true := (hp m (List.mem_cons_self _ _)).mpr rfl
        have hrest : ∀ k ∈ rest, ¬ p k = true := by
          intro k hk hpk
          have hka : k = m := (hp k (List.mem_cons_of_mem _ hk)).mp hpk
          exact hnd.1 (hka ▸ hk)
        rw [List.filter_cons_of_pos hpa, List.filter_eq_nil_iff.mpr hrest]
      · have hna : ¬ p a = true := by
          intro hpa
          have haa : a = m := (hp a (List.mem_cons_self _ _)).mp hpa
          exact hnd.1 (haa ▸ hmem)
        rw [List.filter_cons_of_neg (by simpa using hna)]
        exact ih hnd.2 hmem (fun k hk => hp k (List.mem_cons_of_mem _ hk))

/-- C3: missing-file detection.  For a transfer job in which exactly one
ledgered file (the entry mkv) is absent from the destination and every
other ledgered file is present and byte-identical, phase 3 reports exactly
one failure, whose message carries reason missing for that path, and
verified equals the ledger total minus one. -/
theorem C3_missing_file (nfc : String → String)
    (ledger : List (String × String × Nat)) (dest : List DestFile)
    (mkv : String × String × Nat)
    (hK : (ledger.map Prod.fst).Nodup)
    (hD : (dest.map (fun d => nfc d.relPath)).Nodup)
    (hmem : mkv ∈ ledger)
    (hmiss : ∀ d ∈ dest, nfc d.relPath ≠ mkv.1)
    (hothers : ∀ kv ∈ ledger, kv.1 ≠ mkv.1 → ∃ d ∈ dest,
        nfc d.relPath = kv.1 ∧ d.outcome = ReadOutcome.ok kv.2.1 kv.2.2) :
    phase3 nfc ledger dest =
      { files_verified := ledger.length - 1, files_failed := 1,
        failed_files := [mkv.1 ++ " (missing)"] } := by
  have hmK : mkv.1 ∈ ledger.map Prod.fst := List.mem_map.mpr ⟨mkv, hmem, rfl⟩
  have hmatch : ∀ d ∈ dest, ∀ v, ledgerLookup ledger (nfc d.relPath) = some v →
      d.outcome = ReadOutcome.ok v.1 v.2 := by
    intro d hd v hv
    have hkv : (nfc d.relPath, v) ∈ ledger := ledgerLookup_mem hv
    obtain ⟨d0, hd0, hpath, hout⟩ := hothers _ hkv (hmiss d hd)
    have hdd : d = d0 := List.inj_on_of_nodup_map hD hd hd0 (by rw [hpath])
    rw [hdd]
    exact hout
  have hsub : ∀ k ∈ (ledger.map Prod.fst).erase mkv.1,
      k ∈ dest.map (fun d => nfc d.relPath) := by
    intro k hk
    obtain ⟨hkne, hkK⟩ := hK.mem_erase_iff.mp hk
    obtain ⟨kv, hkv, rfl⟩ := List.mem_map.mp hkK
    obtain ⟨d0, hd0, hpath, _⟩ := hothers _ hkv hkne
    exact List.mem_map.mpr ⟨d0, hd0, hpath⟩
  have hcount : dest.countP (fun d => (ledgerLookup ledger (nfc d.relPath)).isSome) =
      ledger.length - 1 := by
    have h1 : dest.countP (fun d => (ledgerLookup ledger (nfc d.relPath)).isSome) =
        (dest.map (fun d => nfc d.relPath)).countP
          (fun x => (ledgerLookup ledger x).isSome) := by
      rw [List.countP_map]
      rfl
    have h2 : (dest.map (fun d => nfc d.relPath)).countP
          (fun x => (ledgerLookup ledger x).isSome) =
        (dest.map (fun d => nfc d.relPath)).countP
          (fun x => decide (x ∈ (ledger.map Prod.fst).erase mkv.1)) := by
      apply List.countP_congr
      intro x hx
      obtain ⟨d, hd, rfl⟩ := List.mem_map.mp hx
      by_cases hxK : nfc d.relPath ∈ ledger.map Prod.fst
      · have hxe : nfc d.relPath ∈ (ledger.map Prod.fst).erase mkv.1 :=
          hK.mem_erase_iff.mpr ⟨hmiss d hd, hxK⟩
        simp [hxe, (ledgerLookup_isSome_iff ledger _).mpr hxK]
      · have hnot : ¬ (ledgerLookup ledger (nfc d.relPath)).isSome = true :=
          fun hs => hxK ((ledgerLookup_isSome_iff ledger _).mp hs)
        have hxe : nfc d.relPath ∉ (ledger.map Prod.fst).erase mkv.1 :=
          fun he => hxK (hK.mem_erase_iff.mp he).2
        simp only [Bool.not_eq_true] at hnot
        simp [hxe, hnot]
    rw [h1, h2, countP_mem_eq_length hD (hK.erase mkv.1) hsub,
      List.length_erase_of_mem hmK, List.length_map]
  have honemiss : (ledger.map Prod.fst).filter
      (fun k => !decide (k ∈ dest.map (fun d => nfc d.relPath))) = [mkv.1] := by
    apply filter_eq_singleton_of _ hK hmK
    intro k hkK
    constructor
    · intro hpk
      by_contra hkne
      obtain ⟨kv, hkv, rfl⟩ := List.mem_map.mp hkK
      obtain ⟨d0, hd0, hpath, _⟩ := hothers _ hkv hkne
      have : kv.1 ∈ dest.map (fun d => nfc d.relPath) := List.mem_map.mpr ⟨d0, hd0, hpath⟩
      simp [this] at hpk
    · intro hkm
      have hnotin : k ∉ dest.map (fun d => nfc d.relPath) := by
        intro hmemD
        obtain ⟨d, hd, hpath⟩ := List.mem_map.mp hmemD
        exact hmiss d hd (hpath.trans hkm)
      simp [hnotin]
  rw [phase3, verify_fold_all_ok nfc ledger dest _ hmatch, missing_fold, honemiss]
  simp [hcount]

/-- Witness for C3 at a two-file ledger whose second entry is missing from
the destination. -/
theorem C3_witness :
    (([(("a" : String), ("h1" : String), (1 : Nat)), ("b", "h2", 2)]).map Prod.fst).Nodup ∧
    (([⟨"a", ReadOutcome.ok "h1" 1⟩] : List DestFile).map
      (fun d => (fun s => s) d.relPath)).Nodup ∧
    ((("b" : String), ("h2" : String), (2 : Nat)) ∈
      [(("a" : String), ("h1" : String), (1 : Nat)), ("b", "h2", 2)]) ∧
    (∀ d ∈ ([⟨"a", ReadOutcome.ok "h1" 1⟩] : List DestFile),
      (fun s => s) d.relPath ≠ ("b" : String)) ∧
    (∀ kv ∈ [(("a" : String), ("h1" : String), (1 : Nat)), ("b", "h2", 2)],
      kv.1 ≠ ("b" : String) → ∃ d ∈ ([⟨"a", ReadOutcome.ok "h1" 1⟩] : List DestFile),
        (fun s => s) d.relPath = kv.1 ∧ d.outcome = ReadOutcome.ok kv.2.1 kv.2.2) ∧
    phase3 (fun s => s) [("a", "h1", 1), ("b", "h2", 2)] [⟨"a", ReadOutcome.ok "h1" 1⟩] =
      { files_verified := 1, files_failed := 1, failed_files := ["b" ++ " (missing)"] } :=
  ⟨by decide, by decide, by decide, by decide, by decide,
    C3_missing_file (fun s => s) [("a", "h1", 1), ("b", "h2", 2)]
      [⟨"a", ReadOutcome.ok "h1" 1⟩] ("b", "h2", 2)
      (by decide) (by decide) (by decide) (by decide) (by decide)⟩

end Transfer

namespace CatalogDB

/-- Absence of a name among the tapes, as the negated any-test of the
upsert branches sees it. -/
theorem not_any_name {db : CatalogState} {name : String}
    (h : ¬ db.tapes.any (fun t => decide (t.name = name)) = true) :
    ∀ t ∈ db.tapes, t.name ≠ name := by
  intro t ht heq
  exact h (List.any_eq_true.mpr ⟨t, ht, by simp [heq]⟩)

/-- Appending a fresh tape row with zeroed aggregates preserves both
invariants, provided no file row references its name. -/
theorem inv_append_tape {db : CatalogState} (t0 : TapeRecord)
    (hcnt : t0.file_count = 0) (htot : t0.total_bytes = 0)
    (hfresh : ∀ f ∈ db.files, f.tape_name ≠ t0.name)
    (hA : AggOk db) (hT : TapesOk db) :
    AggOk { db with tapes := db.tapes ++ [t0] } ∧
    TapesOk { db with tapes := db.tapes ++ [t0] } := by
  constructor
  · intro t ht
    rcases List.mem_append.mp ht with hmem | hmem
    · exact hA t hmem
    · have ht0 : t = t0 := by simpa using hmem
      subst ht0
      have hemp : db.files.filter (fun f => decide (f.tape_name = t.name)) = [] := by
        rw [List.filter_eq_nil_iff]
        intro f hf
        simpa using hfresh f hf
      simp [hemp, hcnt, htot]
  · intro f hf
    obtain ⟨t, ht, hname⟩ := hT f hf
    exact ⟨t, List.mem_append.mpr (Or.inl ht), hname⟩

/-- add_tape preserves both invariants. -/
theorem inv_add_tape {db : CatalogState} (name : String) (uuid barcode created : Option String)
    (hA : AggOk db) (hT : TapesOk db) :
    AggOk (add_tape db name uuid barcode created) ∧
    TapesOk (add_tape db name uuid barcode created) := by
  rw [add_tape]
  split
  · constructor
    · intro t' ht'
      obtain ⟨t, ht, rfl⟩ := List.mem_map.mp ht'
      by_cases hn : t.name = name
      · simpa [hn] using hA t ht
      · simpa [hn] using hA t ht
    · intro f hf
      obtain ⟨t, ht, hname⟩ := hT f hf
      refine ⟨if t.name = name then
          { t with volume_uuid := coalesce uuid t.volume_uuid
                   barcode := coalesce barcode t.barcode
                   created_at := coalesce created t.created_at }
        else t, List.mem_map.mpr ⟨t, ht, rfl⟩, ?_⟩
      by_cases hn : t.name = name
      · simpa [hn] using hname
      · simpa [hn] using hname
  · rename_i hany
    exact inv_append_tape _ rfl rfl
      (fun f hf heq => not_any_name hany _ ((hT f hf).choose_spec.1 :
        (hT f hf).choose ∈ db.tapes) (((hT f hf).choose_spec.2).trans heq)) hA hT

/-- ensureTape preserves both invariants. -/
theorem inv_ensureTape {db : CatalogState} (name : String)
    (hA : AggOk db) (hT : TapesOk db) :
    AggOk (ensureTape db name) ∧ TapesOk (ensureTape db name) := by
  rw [ensureTape]
  split
  · exact ⟨hA, hT⟩
  · rename_i hany
    refine inv_append_tape _ rfl rfl ?_ hA hT
    intro f hf heq
    obtain ⟨t, ht, hname⟩ := hT f hf
    exact not_any_name hany t ht (hname.trans heq)

/-- ensureTape leaves the files table untouched. -/
theorem ensureTape_files (db : CatalogState) (name : String) :
    (ensureTape db name).files = db.files := by
  rw [ensureTape]
  split
  · rfl
  · rfl

/-- ensureTape guarantees a tape row carrying the given name. -/
theorem ensureTape_has (db : CatalogState) (name : String) :
    ∃ t ∈ (ensureTape db name).tapes, t.name = name := by
  rw [ensureTape]
  split
  · rename_i hany
    obtain ⟨t, ht, hname⟩ := List.any_eq_true.mp hany
    exact ⟨t, ht, by simpa using hname⟩
  · exact ⟨_, List.mem_append.mpr (Or.inr (List.mem_singleton.mpr rfl)), rfl⟩

/-- ensureTape only ever appends a tape row. -/
theorem ensureTape_tapes_mono (db : CatalogState) (name : String) :
    ∀ t ∈ db.tapes, t ∈ (ensureTape db name).tapes := by
  intro t ht
  rw [ensureTape]
  split
  · exact ht
  · exact List.mem_append.mpr (Or.inl ht)

/-- Membership after a file upsert: a row is an old row or the new row. -/
theorem mem_upsertFile {fs : List FileRecord} {r f : FileRecord}
    (h : f ∈ upsertFile fs r) : f ∈ fs ∨ f = r := by
  rw [upsertFile] at h
  split at h
  · obtain ⟨x, hx, hfx⟩ := List.mem_map.mp h
    by_cases hkey : x.tape_name = r.tape_name ∧ x.path = r.path
    · right
      rw [← hfx]
      simp [hkey]
    · left
      rw [← hfx]
      simpa [hkey] using hx
  · rcases List.mem_append.mp h with hmem | hmem
    · exact Or.inl hmem
    · exact Or.inr (by simpa using hmem)

/-- Upserting a row of one tape does not change another tape's filtered
file rows. -/
theorem filter_upsertFile_ne (fs : List FileRecord) (r : FileRecord) (t : String)
    (hne : r.tape_name ≠ t) :
    (upsertFile fs r).filter (fun f => decide (f.tape_name = t)) =
      fs.filter (fun f => decide (f.tape_name = t)) := by
  rw [upsertFile]
  split
  · rename_i hany
    clear hany
    induction fs with
    | nil => simp
    | cons x rest ih =>
        by_cases hkey : x.tape_name = r.tape_name ∧ x.path = r.path
        · have hxt : ¬ x.tape_name = t := by
            rw [hkey.1]
            exact hne
          simp only [List.map_cons, if_pos hkey, List.filter_cons]
          rw [if_neg (by simpa using hne), if_neg (by simpa using hxt)]
          exact ih
        · simp only [List.map_cons, if_neg hkey, List.filter_cons]
          by_cases hxt : x.tape_name = t
          · rw [if_pos (by simpa using hxt), if_pos (by simpa using hxt)]
            rw [ih]
          · rw [if_neg (by simpa using hxt), if_neg (by simpa using hxt)]
            exact ih
  · rw [List.filter_append]
    simp [hne]

/-- The row-insertion fold of add_files leaves the tapes table unchanged. -/
theorem addRows_tapes (nfc : String → String) (tape_name : String)
    (archived_at : Option String)
    (rows : List (String × Nat × Option String × Option String)) (db1 : CatalogState) :
    (rows.foldl (fun d f =>
        let r : FileRecord :=
          { tape_name := tape_name, path := nfc f.1, size := f.2.1, mtime := f.2.2.1,
            xxhash := f.2.2.2, archived_at := archived_at }
        { d with files := upsertFile d.files r }) db1).tapes = db1.tapes := by
  induction rows generalizing db1 with
  | nil => rfl
  | cons x rest ih => exact ih _

/-- The row-insertion fold of add_files does not change another tape's
filtered file rows. -/
theorem addRows_filter_ne (nfc : String → String) (tape_name : String)
    (archived_at : Option String)
    (rows : List (String × Nat × Option String × Option String)) (db1 : CatalogState)
    (t : String) (hne : tape_name ≠ t) :
    (rows.foldl (fun d f =>
        let r : FileRecord :=
          { tape_name := tape_name, path := nfc f.1, size := f.2.1, mtime := f.2.2.1,
            xxhash := f.2.2.2, archived_at := archived_at }
        { d with files := upsertFile d.files r }) db1).files.filter
      (fun f => decide (f.tape_name = t)) =
      db1.files.filter (fun f => decide (f.tape_name = t)) := by
  induction rows generalizing db1 with
  | nil => rfl
  | cons x rest ih =>
      rw [List.foldl_cons, ih]
      exact filter_upsertFile_ne _ _ _ hne

/-- Every file row after the row-insertion fold is an old row or carries
the inserted tape name. -/
theorem addRows_mem (nfc : String → String) (tape_name : String)
    (archived_at : Option String)
    (rows : List (String × Nat × Option String × Option String)) (db1 : CatalogState) :
    ∀ f ∈ (rows.foldl (fun d f =>
        let r : FileRecord :=
          { tape_name := tape_name, path := nfc f.1, size := f.2.1, mtime := f.2.2.1,
            xxhash := f.2.2.2, archived_at := archived_at }
        { d with files := upsertFile d.files r }) db1).files,
      f ∈ db1.files ∨ f.tape_name = tape_name := by
  induction rows generalizing db1 with
  | nil => exact fun f hf => Or.inl hf
  | cons x rest ih =>
      intro f hf
      rcases ih _ f hf with hmem | heq
      · rcases mem_upsertFile hmem with hmem2 | heq2
        · exact Or.inl hmem2
        · exact Or.inr (by rw [heq2])
      · exact Or.inr heq

/-- recomputeStats keeps the files table and the tape names, rewriting
only the named tape's aggregate fields. -/
theorem recomputeStats_spec (db : CatalogState) (name : String) :
    (recomputeStats db name).files = db.files ∧
    ∀ t' ∈ (recomputeStats db name).tapes,
      (t'.name = name →
        t'.file_count = (db.files.filter (fun f => decide (f.tape_name = name))).length ∧
        t'.total_bytes =
          ((db.files.filter (fun f => decide (f.tape_name = name))).map (fun f => f.size)).sum) ∧
      ∃ t ∈ db.tapes, t'.name = t.name ∧
        (t.name ≠ name → t' = t) := by
  refine ⟨rfl, ?_⟩
  intro t' ht'
  obtain ⟨t, ht, rfl⟩ := List.mem_map.mp ht'
  by_cases hn : t.name = name
  · refine ⟨fun _ => ?_, t, ht, by simp [hn], fun hne => absurd hn hne⟩
    simp [hn]
  · refine ⟨fun heq => ?_, t, ht, by simp [hn], fun _ => by simp [hn]⟩
    rw [if_neg hn] at heq
    exact absurd heq hn

/-- recomputeStats preserves the presence of a tape row of any name. -/
theorem recomputeStats_names (db : CatalogState) (name n : String)
    (h : ∃ t ∈ db.tapes, t.name = n) :
    ∃ t' ∈ (recomputeStats db name).tapes, t'.name = n := by
  obtain ⟨t, ht, hname⟩ := h
  rw [recomputeStats]
  refine ⟨if t.name = name then
      { t with
        file_count := (db.files.filter (fun f => decide (f.tape_name = name))).length
        total_bytes :=
          ((db.files.filter (fun f => decide (f.tape_name = name))).map
            (fun f => f.size)).sum }
    else t, List.mem_map.mpr ⟨t, ht, rfl⟩, ?_⟩
  by_cases hn : t.name = name
  · simpa [hn] using hname
  · simpa [hn] using hname

/-- add_files preserves both invariants: the batch is upserted and the
owning tape's aggregates are recomputed from the files table. -/
theorem inv_add_files {db : CatalogState} (nfc : String → String) (tape_name : String)
    (rows : List (String × Nat × Option String × Option String))
    (archived_at : Option String) (hA : AggOk db) (hT : TapesOk db) :
    AggOk (add_files nfc db tape_name rows archived_at) ∧
    TapesOk (add_files nfc db tape_name rows archived_at) := by
  rw [add_files]
  split
  · exact ⟨hA, hT⟩
  · obtain ⟨hA1, hT1⟩ := inv_ensureTape tape_name hA hT
    set db1 := ensureTape db tape_name with hdb1
    set db2 := rows.foldl (fun d f =>
        let r : FileRecord :=
          { tape_name := tape_name, path := nfc f.1, size := f.2.1, mtime := f.2.2.1,
            xxhash := f.2.2.2, archived_at := archived_at }
        { d with files := upsertFile d.files r }) db1 with hdb2
    have htapes2 : db2.tapes = db1.tapes := addRows_tapes nfc tape_name archived_at rows db1
    obtain ⟨hfiles3, hspec⟩ := recomputeStats_spec db2 tape_name
    constructor
    · intro t' ht'
      obtain ⟨hagg, t, ht, hname, hother⟩ := hspec t' ht'
      by_cases hn : t'.name = tape_name
      · rw [hfiles3, hn]
        exact hagg hn
      · have htn : t.name ≠ tape_name := fun h => hn (hname.trans h)
        have ht't : t' = t := hother htn
        rw [hfiles3, ht't]
        have hfilter : db2.files.filter (fun f => decide (f.tape_name = t.name)) =
            db1.files.filter (fun f => decide (f.tape_name = t.name)) :=
          addRows_filter_ne nfc tape_name archived_at rows db1 t.name (Ne.symm htn)
        rw [hfilter]
        exact hA1 t (htapes2 ▸ ht)
    · intro f hf
      rw [hfiles3] at hf
      rcases addRows_mem nfc tape_name archived_at rows db1 f hf with hmem | heq
      · obtain ⟨t, ht, hname⟩ := hT1 f hmem
        exact recomputeStats_names db2 tape_name f.tape_name ⟨t, htapes2 ▸ ht, hname⟩
      · obtain ⟨t, ht, hname⟩ := ensureTape_has db tape_name
        exact recomputeStats_names db2 tape_name f.tape_name
          ⟨t, htapes2 ▸ ht, hname.trans heq.symm⟩

/-- delete_tape preserves both invariants: removing a volume and its file
rows leaves every other volume's aggregates untouched and correct. -/
theorem inv_delete_tape {db : CatalogState} (name : String)
    (hA : AggOk db) (hT : TapesOk db) :
    AggOk (delete_tape db name) ∧ TapesOk (delete_tape db name) := by
  constructor
  · intro t ht
    rw [delete_tape] at ht
    obtain ⟨htmem, htneq⟩ := List.mem_filter.mp ht
    have hne : t.name ≠ name := by simpa using htneq
    have hcomm : (db.files.filter (fun f => !decide (f.tape_name = name))).filter
        (fun f => decide (f.tape_name = t.name)) =
        db.files.filter (fun f => decide (f.tape_name = t.name)) := by
      rw [List.filter_filter]
      apply List.filter_congr
      intro f _
      by_cases hft : f.tape_name = t.name
      · simp [hft, hne]
      · simp [hft]
    have hfiles : (delete_tape db name).files =
        db.files.filter (fun f => !decide (f.tape_name = name)) := rfl
    rw [hfiles, hcomm]
    exact hA t htmem
  · intro f hf
    obtain ⟨hfm, hfneq⟩ := List.mem_filter.mp hf
    have hne : f.tape_name ≠ name := by simpa using hfneq
    obtain ⟨t, ht, hname⟩ := hT f hfm
    refine ⟨t, List.mem_filter.mpr ⟨ht, ?_⟩, hname⟩
    simp [hname, hne]

/-- Every catalog operation preserves both invariants. -/
theorem inv_applyOp (nfc : String → String) (db : CatalogState) (op : CatOp)
    (h : AggOk db ∧ TapesOk db) :
    AggOk (applyOp nfc db op) ∧ TapesOk (applyOp nfc db op) := by
  cases op with
  | addTape n u b c => exact inv_add_tape n u b c h.1 h.2
  | addFiles t fs a => exact inv_add_files nfc t fs a h.1 h.2
  | deleteTape n => exact inv_delete_tape n h.1 h.2

/-- C1: after any sequence of completed catalog updates (the add_tape and
add_files calls issued by a finished transfer, recover or finalize run)
and whole-volume deletions, starting from a fresh catalog, every stored
tape row's file_count equals the number of its file rows and its
total_bytes equals the sum of their sizes: no path updates an aggregate
without recomputing it from the file rows. -/
theorem C1_aggregate_correctness (nfc : String → String) (ops : List CatOp) :
    AggOk (ops.foldl (applyOp nfc) { tapes := [], files := [] }) := by
  suffices h : ∀ db, AggOk db ∧ TapesOk db →
      AggOk (ops.foldl (applyOp nfc) db) ∧ TapesOk (ops.foldl (applyOp nfc) db) by
    exact (h _ ⟨fun t ht => absurd ht (List.not_mem_nil t),
      fun f hf => absurd hf (List.not_mem_nil f)⟩).1
  induction ops with
  | nil => exact fun db h => h
  | cons op rest ih => exact fun db h => ih _ (inv_applyOp nfc db op h)

end CatalogDB

/-- Folding two pointwise-equal step functions gives equal results. -/
theorem foldl_congr_fun {α β : Type} (f g : α → β → α) (l : List β) (a : α)
    (h : ∀ acc x, f acc x = g acc x) : l.foldl f a = l.foldl g a := by
  induction l generalizing a with
  | nil => rfl
  | cons x rest ih => rw [List.foldl_cons, List.foldl_cons, h, ih]

/-- Rewriting every ledger entry's stored size leaves lookups with the
same keys and digests. -/
theorem ledgerLookup_resize (resize : String × String × Nat → Nat) :
    ∀ (ledger : List (String × String × Nat)) (k : String),
    Transfer.ledgerLookup (ledger.map (fun kv => (kv.1, kv.2.1, resize kv))) k =
      (Transfer.ledgerLookup ledger k).map (fun v => (v.1, resize (k, v))) := by
  intro ledger
  induction ledger with
  | nil => intro k; rfl
  | cons kv rest ih =>
      intro k
      rcases kv with ⟨p, v⟩
      by_cases hp : p = k
      · subst hp
        simp [Transfer.ledgerLookup]
      · simp only [List.map_cons, Transfer.ledgerLookup, if_neg hp]
        exact ih k

/-- The phase-3 walk step is unchanged when every ledger size is
rewritten: only the stored digest is compared. -/
theorem verifyStep_resize (nfc : String → String)
    (ledger : List (String × String × Nat)) (resize : String × String × Nat → Nat)
    (acc : Transfer.Phase3Result) (d : Transfer.DestFile) :
    Transfer.verifyStep nfc (ledger.map (fun kv => (kv.1, kv.2.1, resize kv))) acc d =
      Transfer.verifyStep nfc ledger acc d := by
  simp only [Transfer.verifyStep, ledgerLookup_resize]
  cases Transfer.ledgerLookup ledger (nfc d.relPath) with
  | none => rfl
  | some v =>
      cases d.outcome with
      | ok hsh sz => rfl
      | err => rfl

/-- C5 counterexample: digests are trusted without their paired sizes.
Phase 3 marks a destination file verified although its size 3 differs
from the ledger's paired size 5 (the stored expected size is fetched but
never compared), and the catalog exact-digest lookup returns the rows of
both sizes for one digest with no size condition in its query. -/
theorem C5_counterexample :
    Transfer.phase3 (fun s => s) [("a", "h", 5)] [⟨"a", Transfer.ReadOutcome.ok "h" 3⟩] =
      { files_verified := 1, files_failed := 0, failed_files := [] } ∧
    (5 : Nat) ≠ 3 ∧
    CatalogDB.find_by_hash
        { tapes := [],
          files := [⟨"T", "p", 1, none, some "h", none⟩, ⟨"T", "q", 2, none, some "h", none⟩] }
        "h" =
      [⟨"T", "p", 1, none, some "h"⟩, ⟨"T", "q", 2, none, some "h"⟩] := by
  refine ⟨by decide, by decide, ?_⟩
  rw [CatalogDB.find_by_hash]
  show ([⟨"T", "p", 1, none, some "h"⟩, ⟨"T", "q", 2, none, some "h"⟩] :
      List CatalogDB.SearchResult).mergeSort CatalogDB.rowLE = _
  exact List.mergeSort_of_sorted (by decide)

/-- C5 amended: neither place checks the paired size.  The phase-3
verification verdict is a function of the stored digests alone — rewriting
every ledger entry's size arbitrarily changes nothing — and the catalog
exact-digest lookup returns exactly the file rows whose digest equals the
query, each row carrying its size unchecked for the caller to inspect. -/
theorem C5_digest_not_paired_with_size :
    (∀ (nfc : String → String) (ledger : List (String × String × Nat))
        (dest : List Transfer.DestFile) (resize : String × String × Nat → Nat),
      Transfer.phase3 nfc (ledger.map (fun kv => (kv.1, kv.2.1, resize kv))) dest =
        Transfer.phase3 nfc ledger dest) ∧
    (∀ (db : CatalogDB.CatalogState) (h : String) (r : CatalogDB.SearchResult),
      r ∈ CatalogDB.find_by_hash db h ↔
        ∃ f ∈ db.files, f.xxhash = some h ∧
          r = ⟨f.tape_name, f.path, f.size, f.mtime, f.xxhash⟩) := by
  constructor
  · intro nfc ledger dest resize
    rw [Transfer.phase3, Transfer.phase3]
    have hwalk : dest.foldl
        (Transfer.verifyStep nfc (ledger.map (fun kv => (kv.1, kv.2.1, resize kv))))
        ⟨0, 0, []⟩ = dest.foldl (Transfer.verifyStep nfc ledger) ⟨0, 0, []⟩ :=
      foldl_congr_fun _ _ dest _ (fun acc d => verifyStep_resize nfc ledger resize acc d)
    rw [hwalk, List.foldl_map]
    exact foldl_congr_fun _ _ ledger _ (fun acc kv => rfl)
  · intro db h r
    rw [CatalogDB.find_by_hash]
    rw [List.mem_mergeSort]
    simp only [List.mem_map, List.mem_filter, decide_eq_true_eq]
    constructor
    · rintro ⟨f, ⟨hf, hx⟩, rfl⟩
      exact ⟨f, hf, hx, rfl⟩
    · rintro ⟨f, hf, hx, rfl⟩
      exact ⟨f, ⟨hf, hx⟩, rfl⟩

namespace MHL

theorem natDigits_all_digits (n : Nat) : (natDigits n).all isDigitCp = true := by
  induction n using Nat.strong_induction_on with
  | _ n ih =>
    rw [natDigits]
    split
    · rename_i h
      simp [isDigitCp] <;> omega
    · rename_i h
      rw [List.all_append, Bool.and_eq_true]
      refine ⟨ih (n / 10) (Nat.div_lt_self (by omega) (by omega)), ?_⟩
      simp [isDigitCp] <;> omega

theorem natDigits_ne_nil (n : Nat) : natDigits n ≠ [] := by
  rw [natDigits]
  split
  · simp
  · simp

theorem foldl_natDigits (n : Nat) :
    (natDigits n).foldl (fun a c => a * 10 + (c - 48)) 0 = n := by
  induction n using Nat.strong_induction_on with
  | _ n ih =>
    rw [natDigits]
    split
    · rename_i h
      simp <;> omega
    · rename_i h
      rw [List.foldl_append, ih (n / 10) (Nat.div_lt_self (by omega) (by omega))]
      simp <;> omega

/-- str followed by int is the identity on sizes. -/
theorem parseNat_natDigits (n : Nat) : parseNat (natDigits n) = some n := by
  rw [parseNat, if_pos ⟨natDigits_ne_nil n, natDigits_all_digits n⟩, foldl_natDigits]

/-- Decimal digit text is valid XML. -/
theorem xmlClean_of_digits (s : PyStr) (h : s.all isDigitCp = true) :
    xmlClean s = true := by
  rw [xmlClean, List.all_eq_true]
  rw [List.all_eq_true] at h
  intro c hc
  have hd := h c hc
  simp [isDigitCp] at hd
  simp [isXmlChar]
  omega

/-- A formatted timestamp is valid XML. -/
theorem xmlClean_formatTs (d : PyDateTime) : xmlClean (formatTs d) = true := by
  simp [xmlClean, formatTs, isXmlChar]
  omega

/-- Sanitized text of Unicode code points is valid XML: everything the
regular expression keeps the parser accepts. -/
theorem xmlClean_sanitize (s : PyStr) (h : ∀ c ∈ s, c < 1114112) :
    xmlClean (sanitize_xml_string s) = true := by
  rw [xmlClean, List.all_eq_true]
  intro c hc
  obtain ⟨hcs, hkeep⟩ := List.mem_filter.mp hc
  have hb : isDroppedBySanitize c = false := by
    cases hdrop : isDroppedBySanitize c
    · rfl
    · rw [hdrop] at hkeep
      simp at hkeep
  have hlt := h c hcs
  simp [isDroppedBySanitize] at hb
  simp [isXmlChar]
  omega

/-- strftime followed by strptime truncates a valid timestamp to whole
seconds. -/
theorem parseTs_formatTs (d : PyDateTime) (h : TsValid d) :
    parseTs (formatTs d) = some (truncTs d) := by
  obtain ⟨hy, hmo, hd, hh, hmi, hs⟩ := h
  rw [formatTs, parseTs, if_pos]
  · simp only [truncTs, Option.some.injEq, PyDateTime.mk.injEq]
    refine ⟨by omega, by omega, by omega, by omega, by omega, by omega, trivial⟩
  · refine ⟨rfl, rfl, rfl, rfl, rfl, rfl, ?_⟩
    simp [isDigitCp] <;> omega

/-- Truncation is the identity on whole-second timestamps. -/
theorem truncTs_eq_self (d : PyDateTime) (h : d.microsecond = 0) : truncTs d = d := by
  cases d
  simp only [truncTs]
  simp_all

/-- Serializing one entry and reading it back yields the entry with its
timestamps truncated to whole seconds, provided the file text survives
normalization and sanitization unchanged up to the final normalization. -/
theorem fromElement_toElement (nfc : PyStr → PyStr) (e : HashEntry)
    (hfile : nfc (sanitize_xml_string (nfc e.file)) = e.file)
    (hmod : ∀ d ∈ e.last_modification_date, TsValid d)
    (hhd : ∀ d ∈ e.hash_date, TsValid d) :
    fromElement nfc (toElement nfc e) =
      some { e with
        last_modification_date := e.last_modification_date.map truncTs
        hash_date := e.hash_date.map truncTs } := by
  rw [toElement, fromElement]
  simp only [parseNat_natDigits]
  simp only [Option.some.injEq, HashEntry.mk.injEq]
  refine ⟨hfile, trivial, trivial, ?_, ?_⟩
  · cases hlmd : e.last_modification_date with
    | none => rfl
    | some d =>
        have hv : TsValid d := hmod d (by rw [hlmd]; rfl)
        show (if formatTs d = [] then none else parseTs (formatTs d)) = some (truncTs d)
        rw [if_neg (by simp [formatTs])]
        exact parseTs_formatTs d hv
  · cases hhdd : e.hash_date with
    | none => rfl
    | some d =>
        have hv : TsValid d := hhd d (by rw [hhdd]; rfl)
        show (if formatTs d = [] then none else parseTs (formatTs d)) = some (truncTs d)
        rw [if_neg (by simp [formatTs])]
        exact parseTs_formatTs d hv

/-- The load loop over serialized elements rebuilds the entries in order
when each element reads back as its own entry. -/
theorem loadElems_map (nfc : PyStr → PyStr) (entries : List HashEntry)
    (h : ∀ e ∈ entries, fromElement nfc (toElement nfc e) = some e) :
    loadElems nfc (entries.map (toElement nfc)) = some entries := by
  induction entries with
  | nil => rfl
  | cons e rest ih =>
      rw [List.map_cons, loadElems, h e (List.mem_cons_self _ _),
        ih (fun x hx => h x (List.mem_cons_of_mem _ hx))]

/-- Every element serialized from an entry with Unicode-range file text
and XML-clean digest text is XML-clean. -/
theorem elemClean_toElement (nfc : PyStr → PyStr) (e : HashEntry)
    (hrange : ∀ c ∈ nfc e.file, c < 1114112)
    (hhash : xmlClean e.xxhash64be = true) :
    elemClean (toElement nfc e) = true := by
  rw [toElement, elemClean]
  simp only [Bool.and_eq_true]
  refine ⟨⟨⟨⟨xmlClean_sanitize _ hrange, ?_⟩, hhash⟩, ?_⟩, ?_⟩
  · exact xmlClean_of_digits _ (natDigits_all_digits e.size)
  · cases e.last_modification_date with
    | none => rfl
    | some d => exact xmlClean_formatTs d
  · cases e.hash_date with
    | none => rfl
    | some d => exact xmlClean_formatTs d

/-- C6 counterexample: an entry whose modification timestamp carries a
nonzero microsecond field does not survive the save and load round trip —
the strftime rendering prints whole seconds only, so the reloaded record
differs from the original in its timestamp. -/
theorem C6_counterexample :
    saveLoadRecords (fun s => s)
        [⟨[97], 5, [98], some ⟨2026, 1, 1, 12, 0, 0, 500000⟩, none⟩] ≠
      some [⟨[97], 5, [98], some ⟨2026, 1, 1, 12, 0, 0, 500000⟩, none⟩] := by
  have hfe : fromElement (fun s => s)
      (toElement (fun s => s) ⟨[97], 5, [98], some ⟨2026, 1, 1, 12, 0, 0, 500000⟩, none⟩) =
      some ⟨[97], 5, [98], some ⟨2026, 1, 1, 12, 0, 0, 0⟩, none⟩ := by
    rw [fromElement_toElement (fun s => s)
      ⟨[97], 5, [98], some ⟨2026, 1, 1, 12, 0, 0, 500000⟩, none⟩ (by decide)
      (by intro d hd; cases hd; decide) (by intro d hd; cases hd)]
    rfl
  have hgate : (([⟨[97], 5, [98], some ⟨2026, 1, 1, 12, 0, 0, 500000⟩, none⟩] :
      List HashEntry).map (toElement (fun s => s))).all elemClean = true := by
    rw [List.map_cons, List.map_nil, List.all_cons,
      elemClean_toElement (fun s => s) _ (by decide) (by decide)]
    rfl
  rw [saveLoadRecords]
  rw [if_pos hgate]
  rw [List.map_cons, List.map_nil, loadElems, hfe]
  rw [show loadElems (fun s => s) [] = some [] from rfl]
  decide

/-- C6 amended: deserializing a serialized Manifest yields an equal,
order-preserving record set for every Manifest whose records have file
texts unchanged by normalization and XML sanitization (NFC-normalized,
XML-clean paths), XML-clean digest texts, and timestamps that are valid
calendar values with zero microseconds; in general the round trip
truncates timestamps to whole seconds, rewrites the file text to its
sanitized NFC form, and fails entirely when a digest text holds an
XML-invalid character. -/
theorem C6_round_trip (nfc : PyStr → PyStr) (entries : List HashEntry)
    (hfile : ∀ e ∈ entries, nfc (sanitize_xml_string (nfc e.file)) = e.file)
    (hrange : ∀ e ∈ entries, ∀ c ∈ nfc e.file, c < 1114112)
    (hhash : ∀ e ∈ entries, xmlClean e.xxhash64be = true)
    (hdates : ∀ e ∈ entries,
      (∀ d ∈ e.last_modification_date, TsValid d ∧ d.microsecond = 0) ∧
      (∀ d ∈ e.hash_date, TsValid d ∧ d.microsecond = 0)) :
    saveLoadRecords nfc entries = some entries := by
  rw [saveLoadRecords]
  have hgate : (entries.map (toElement nfc)).all elemClean = true := by
    rw [List.all_eq_true]
    intro el hel
    obtain ⟨e, he, rfl⟩ := List.mem_map.mp hel
    exact elemClean_toElement nfc e (hrange e he) (hhash e he)
  rw [if_pos hgate]
  apply loadElems_map
  intro e he
  rw [fromElement_toElement nfc e (hfile e he)
    (fun d hd => ((hdates e he).1 d hd).1) (fun d hd => ((hdates e he).2 d hd).1)]
  have hlmd : e.last_modification_date.map truncTs = e.last_modification_date := by
    cases hc : e.last_modification_date with
    | none => rfl
    | some d =>
        rw [Option.map_some', truncTs_eq_self d ((((hdates e he).1) d (by rw [hc]; rfl)).2)]
  have hhdd : e.hash_date.map truncTs = e.hash_date := by
    cases hc : e.hash_date with
    | none => rfl
    | some d =>
        rw [Option.map_some', truncTs_eq_self d ((((hdates e he).2) d (by rw [hc]; rfl)).2)]
  rw [hlmd, hhdd]

/-- Witness for C6 amended at a one-record Manifest with a clean ASCII
path, a hex digest text and a whole-second timestamp; NFC normalization
is the identity on it. -/
theorem C6_witness :
    (∀ e ∈ ([⟨[97], 5, [97, 98], some ⟨2026, 1, 1, 12, 0, 0, 0⟩, none⟩] : List HashEntry),
      (fun s : PyStr => s) (sanitize_xml_string ((fun s : PyStr => s) e.file)) = e.file) ∧
    (∀ e ∈ ([⟨[97], 5, [97, 98], some ⟨2026, 1, 1, 12, 0, 0, 0⟩, none⟩] : List HashEntry),
      ∀ c ∈ (fun s : PyStr => s) e.file, c < 1114112) ∧
    (∀ e ∈ ([⟨[97], 5, [97, 98], some ⟨2026, 1, 1, 12, 0, 0, 0⟩, none⟩] : List HashEntry),
      xmlClean e.xxhash64be = true) ∧
    (∀ e ∈ ([⟨[97], 5, [97, 98], some ⟨2026, 1, 1, 12, 0, 0, 0⟩, none⟩] : List HashEntry),
      (∀ d ∈ e.last_modification_date, TsValid d ∧ d.microsecond = 0) ∧
      (∀ d ∈ e.hash_date, TsValid d ∧ d.microsecond = 0)) ∧
    saveLoadRecords (fun s => s)
        [⟨[97], 5, [97, 98], some ⟨2026, 1, 1, 12, 0, 0, 0⟩, none⟩] =
      some [⟨[97], 5, [97, 98], some ⟨2026, 1, 1, 12, 0, 0, 0⟩, none⟩] :=
  ⟨by decide, by decide, by decide,
    by
      intro e he
      rw [List.mem_singleton] at he
      subst he
      exact ⟨by intro d hd; cases hd; exact ⟨by decide, rfl⟩, by intro d hd; cases hd⟩,
    C6_round_trip (fun s => s) [⟨[97], 5, [97, 98], some ⟨2026, 1, 1, 12, 0, 0, 0⟩, none⟩]
      (by decide) (by decide) (by decide)
      (by
        intro e he
        rw [List.mem_singleton] at he
        subst he
        exact ⟨by intro d hd; cases hd; exact ⟨by decide, rfl⟩, by intro d hd; cases hd⟩)⟩

end MHL

/-- C9: any failure raised during the phase-5 catalog update of a transfer
or recovery run is caught and logged as a warning, the phase-4 Manifest
file already written is still present with exactly its written content
(neither deleted nor modified), the catalog is left as it was, and the job
still produces its result — runPhases45 is a total function, so nothing
propagates the raise. -/
theorem C9_phase5_failure_caught (st : Transfer.JobState) (path doc : String)
    (dbUpdate : CatalogDB.CatalogState → Except String CatalogDB.CatalogState)
    (e : String)
    (hfail : dbUpdate (Transfer.phase4 st path doc).catalog = Except.error e) :
    (Transfer.runPhases45 st path doc dbUpdate).1.mhlDir path = some doc ∧
    (Transfer.runPhases45 st path doc dbUpdate).1.catalog = st.catalog ∧
    (Transfer.runPhases45 st path doc dbUpdate).2 =
      some ("Warning: Could not update catalog database: " ++ e) := by
  rw [Transfer.runPhases45, Transfer.phase5b, hfail]
  refine ⟨?_, rfl, rfl⟩
  simp [Transfer.phase4, Transfer.saveMHL]

/-- Witness for C9 at a concrete job whose catalog update always raises. -/
theorem C9_witness :
    ((fun _ => Except.error "disk full" :
        CatalogDB.CatalogState → Except String CatalogDB.CatalogState)
      (Transfer.phase4 ⟨fun _ => none, { tapes := [], files := [] }⟩ "t.mhl" "doc").catalog =
        Except.error "disk full") ∧
    ((Transfer.runPhases45 ⟨fun _ => none, { tapes := [], files := [] }⟩ "t.mhl" "doc"
        (fun _ => Except.error "disk full")).1.mhlDir "t.mhl" = some "doc" ∧
      (Transfer.runPhases45 ⟨fun _ => none, { tapes := [], files := [] }⟩ "t.mhl" "doc"
        (fun _ => Except.error "disk full")).1.catalog = { tapes := [], files := [] } ∧
      (Transfer.runPhases45 ⟨fun _ => none, { tapes := [], files := [] }⟩ "t.mhl" "doc"
        (fun _ => Except.error "disk full")).2 =
        some ("Warning: Could not update catalog database: " ++ "disk full")) :=
  ⟨rfl, C9_phase5_failure_caught ⟨fun _ => none, { tapes := [], files := [] }⟩ "t.mhl" "doc"
    (fun _ => Except.error "disk full") "disk full" rfl⟩

/-- C4 counterexample: a source tree with one regular file that fails to
read during phase 1 (an OSError warning).  check_source counts it, but it
enters neither the ledger (hence not the Manifest) nor the excluded list,
so record count plus excluded count falls short of the files discovered. -/
theorem C4_counterexample :
    (Transfer.check_source [⟨"a", 1, "h", false⟩]).1 = 1 ∧
    Transfer.manifestRecordCount
        (Transfer.phase1 (fun s => s) (fun _ => false) [⟨"a", 1, "h", false⟩]).1 +
      (Transfer.phase1 (fun s => s) (fun _ => false) [⟨"a", 1, "h", false⟩]).2.length = 0 := by
  decide

/-- Counting growth of the phase-1 fold: each excluded file appends one
excluded entry, each readable non-excluded file with a globally fresh
normalized key appends one ledger entry, and each unreadable file adds
nothing. -/
theorem phase1_fold_counts (nfc : String → String) (excl : String → Bool)
    (files : List Transfer.SrcFile) :
    ∀ acc : List (String × String × Nat) × List String,
    ((acc.1.map Prod.fst) ++
      (files.filter (fun f => !excl f.relPath && f.readable)).map
        (fun f => nfc f.relPath)).Nodup →
    (files.foldl (Transfer.phase1Step nfc excl) acc).1.length =
        acc.1.length + (files.filter (fun f => !excl f.relPath && f.readable)).length ∧
    (files.foldl (Transfer.phase1Step nfc excl) acc).2.length =
        acc.2.length + (files.filter (fun f => excl f.relPath)).length := by
  induction files with
  | nil =>
      intro acc _
      simp
  | cons f rest ih =>
      intro acc hnd
      rw [List.foldl_cons]
      by_cases hexcl : excl f.relPath
      · have hstep : Transfer.phase1Step nfc excl acc f = (acc.1, acc.2 ++ [f.relPath]) := by
          rw [Transfer.phase1Step, if_pos hexcl]
        have hnd' : (((acc.1, acc.2 ++ [f.relPath]).1.map Prod.fst) ++
            (rest.filter (fun f => !excl f.relPath && f.readable)).map
              (fun f => nfc f.relPath)).Nodup := by
          simpa [List.filter_cons, hexcl] using hnd
        obtain ⟨h1, h2⟩ := ih _ hnd'
        rw [hstep]
        refine ⟨by simpa [List.filter_cons, hexcl] using h1, ?_⟩
        rw [h2]
        simp [List.filter_cons, hexcl]
        omega
      · by_cases hread : f.readable
        · have hfresh : nfc f.relPath ∉ acc.1.map Prod.fst := by
            intro hmem
            have : ¬ ((acc.1.map Prod.fst) ++
                ((f :: rest).filter (fun f => !excl f.relPath && f.readable)).map
                  (fun f => nfc f.relPath)).Nodup := by
              rw [List.filter_cons]
              simp only [hexcl, hread, Bool.not_false, Bool.and_self, if_pos]
              intro hn
              have hdisj := List.disjoint_of_nodup_append hn
              exact hdisj hmem (by simp)
            exact this hnd
          have hins : Transfer.dictInsert acc.1 (nfc f.relPath) (f.hash, f.size) =
              acc.1 ++ [(nfc f.relPath, f.hash, f.size)] := by
            rw [Transfer.dictInsert, if_neg hfresh]
          have hstep : Transfer.phase1Step nfc excl acc f =
              (acc.1 ++ [(nfc f.relPath, f.hash, f.size)], acc.2) := by
            rw [Transfer.phase1Step, if_neg (by simp [hexcl]), if_pos hread, hins]
          have hnd' : ((((acc.1 ++ [(nfc f.relPath, f.hash, f.size)], acc.2)).1.map
              Prod.fst) ++ (rest.filter (fun f => !excl f.relPath && f.readable)).map
                (fun f => nfc f.relPath)).Nodup := by
            have hrw : ((f :: rest).filter (fun f => !excl f.relPath && f.readable)).map
                (fun f => nfc f.relPath) =
                nfc f.relPath :: (rest.filter (fun f => !excl f.relPath && f.readable)).map
                  (fun f => nfc f.relPath) := by
              rw [List.filter_cons]
              simp [hexcl, hread]
            rw [hrw] at hnd
            simpa [List.append_assoc] using hnd
          obtain ⟨h1, h2⟩ := ih _ hnd'
          rw [hstep]
          constructor
          · rw [h1]
            rw [List.filter_cons]
            simp [hexcl, hread]
            omega
          · rw [h2]
            simp [List.filter_cons, hexcl]
        · have hstep : Transfer.phase1Step nfc excl acc f = acc := by
            rw [Transfer.phase1Step, if_neg (by simp [hexcl]), if_neg hread]
          have hnd' : ((acc.1.map Prod.fst) ++
              (rest.filter (fun f => !excl f.relPath && f.readable)).map
                (fun f => nfc f.relPath)).Nodup := by
            simpa [List.filter_cons, hexcl, hread] using hnd
          obtain ⟨h1, h2⟩ := ih _ hnd'
          rw [hstep]
          refine ⟨?_, ?_⟩
          · rw [h1]
            simp [List.filter_cons, hexcl, hread]
          · rw [h2]
            simp [List.filter_cons, hexcl]

/-- The three file classes of phase 1 — excluded, readable non-excluded,
unreadable non-excluded — partition the discovered files. -/
theorem phase1_partition_count (p q : Transfer.SrcFile → Bool)
    (files : List Transfer.SrcFile) :
    (files.filter (fun f => !p f && q f)).length + (files.filter (fun f => p f)).length +
      (files.filter (fun f => !p f && !q f)).length = files.length := by
  induction files with
  | nil => rfl
  | cons f rest ih =>
      by_cases hp : p f <;> by_cases hq : q f <;>
        simp [List.filter_cons, hp, hq] <;> omega

/-- C4 amended: Manifest record count plus excluded-file count plus the
count of non-excluded files skipped by a per-file read-error warning
equals the number of regular files discovered under the source root,
provided the normalized ledger keys of the hashed files are pairwise
distinct (the Python dict otherwise silently coalesces colliding keys). -/
theorem C4_record_count (nfc : String → String) (excl : String → Bool)
    (files : List Transfer.SrcFile)
    (hnd : ((files.filter (fun f => !excl f.relPath && f.readable)).map
      (fun f => nfc f.relPath)).Nodup) :
    Transfer.manifestRecordCount (Transfer.phase1 nfc excl files).1 +
      (Transfer.phase1 nfc excl files).2.length +
      (files.filter (fun f => !excl f.relPath && !f.readable)).length =
    (Transfer.check_source files).1 := by
  obtain ⟨h1, h2⟩ := phase1_fold_counts nfc excl files ([], []) (by simpa using hnd)
  rw [Transfer.manifestRecordCount, Transfer.phase1, h1, h2, Transfer.check_source]
  simpa using phase1_partition_count (fun f => excl f.relPath) (fun f => f.readable) files

/-- Witness for C4 amended at a three-file source: one hashed, one
excluded, one unreadable. -/
theorem C4_witness :
    ((([⟨"a", 1, "h1", true⟩, ⟨"b", 2, "h2", false⟩, ⟨"c", 3, "h3", true⟩] :
        List Transfer.SrcFile).filter
      (fun f => !(fun s => s == "c") f.relPath && f.readable)).map
        (fun f => (fun s => s) f.relPath)).Nodup ∧
    Transfer.manifestRecordCount
        (Transfer.phase1 (fun s => s) (fun s => s == "c")
          [⟨"a", 1, "h1", true⟩, ⟨"b", 2, "h2", false⟩, ⟨"c", 3, "h3", true⟩]).1 +
      (Transfer.phase1 (fun s => s) (fun s => s == "c")
          [⟨"a", 1, "h1", true⟩, ⟨"b", 2, "h2", false⟩, ⟨"c", 3, "h3", true⟩]).2.length +
      (([⟨"a", 1, "h1", true⟩, ⟨"b", 2, "h2", false⟩, ⟨"c", 3, "h3", true⟩] :
        List Transfer.SrcFile).filter
          (fun f => !(fun s => s == "c") f.relPath && !f.readable)).length =
    (Transfer.check_source
      [⟨"a", 1, "h1", true⟩, ⟨"b", 2, "h2", false⟩, ⟨"c", 3, "h3", true⟩]).1 :=
  ⟨by decide, C4_record_count (fun s => s) (fun s => s == "c")
    [⟨"a", 1, "h1", true⟩, ⟨"b", 2, "h2", false⟩, ⟨"c", 3, "h3", true⟩] (by decide)⟩

end LTFSTools
